import Mathlib

/-! ecom-catelog: product catalog service

A shallow embedding of `models/Product.js` and `routes/productRoutes.js`.

* JavaScript numbers are represented by exact rationals (`ℚ`); IEEE-754 rounding is
  outside the model.
* ObjectId values are represented by natural numbers, handed out by a counter kept in the
  store.
* The document database is represented by the list of its product documents in natural
  (insertion) order.  The query, update and aggregation operators used by the routes are
  defined below following the behaviour of the database: a dotted path into an array of
  sub-documents is satisfied as soon as *some* element satisfies the condition, each
  condition of a filter is evaluated on its own, and the positional `$` of an update is the
  array index recorded by the last array condition of the filter.
* Request bodies are typed: a field is absent or holds a value of the type of its schema
  path.  Failures of the connection to the database are outside the model, so the `500`
  answers that remain are those caused by the request itself.
* The repository pins no version of mongoose.  The one place where the routes depend on the
  version, the call `mongoose.Types.ObjectId(...)` without `new` in the avg-rating route, takes
  the behaviour of the installed library as a parameter.
* `$group` emits its groups in order of first occurrence and `$sort` is stable; the store
  leaves both orders open, and the statements below do not depend on them.
-/

namespace EcomCatalog

/-! ## models/Product.js -/

abbrev ObjectId := Nat

/-- Sub-document of `variantSchema`. -/
structure Variant where
  sku : String
  color : Option String
  size : Option String
  price : ℚ
  stock : ℚ
deriving DecidableEq

/-- Sub-document of `reviewSchema`. -/
structure Review where
  _id : ObjectId
  user : Option ObjectId
  name : Option String
  rating : ℚ
  comment : Option String
  createdAt : Nat
deriving DecidableEq

/-- Document of `productSchema`. -/
structure Product where
  _id : ObjectId
  name : String
  description : Option String
  categories : List String
  variants : List Variant
  reviews : List Review
  createdAt : Nat
  updatedAt : Option Nat
deriving DecidableEq

/-- A variant as it arrives in a request body: any field may be absent. -/
structure VariantInput where
  sku : Option String
  color : Option String
  size : Option String
  price : Option ℚ
  stock : Option ℚ

/-- A review as it arrives in a request body: any field may be absent. -/
structure ReviewInput where
  user : Option ObjectId
  name : Option String
  rating : Option ℚ
  comment : Option String

/-- Body of `POST /api/products`. -/
structure ProductInput where
  name : Option String
  description : Option String
  categories : List String
  variants : List VariantInput
  reviews : List ReviewInput

/-- Validators of `variantSchema` on a stored variant: `sku` required (a required string
must be non-empty), `stock` with `min: 0`. -/
def Variant.validate (v : Variant) : Bool :=
  v.sku != "" && decide (0 ≤ v.stock)

/-- Validators of `reviewSchema` on a stored review: `rating` with `min: 1, max: 5`. -/
def Review.validate (r : Review) : Bool :=
  decide (1 ≤ r.rating) && decide (r.rating ≤ 5)

/-- Validators of `productSchema` on a whole document: `name` required, every variant and
every review valid. -/
def Product.validate (p : Product) : Bool :=
  p.name != "" && p.variants.all Variant.validate && p.reviews.all Review.validate

/-- Casting with `variantSchema`: `sku` and `price` are required, `stock` has
`default: 0`.  The result is `none` when a required field is missing. -/
def variantSchema (v : VariantInput) : Option Variant :=
  match v.sku, v.price with
  | some sku, some price =>
    some { sku := sku, color := v.color, size := v.size, price := price, stock := v.stock.getD 0 }
  | _, _ => none

/-- Casting with `reviewSchema`: `rating` is required, `createdAt` has `default: Date.now`,
the sub-document gets an `_id`. -/
def reviewSchema (oid : ObjectId) (now : Nat) (r : ReviewInput) : Option Review :=
  match r.rating with
  | some rating =>
    some { _id := oid, user := r.user, name := r.name, rating := rating, comment := r.comment,
           createdAt := now }
  | none => none

/-- Cast every variant of a body; `none` as soon as one misses a required field. -/
def castVariants : List VariantInput → Option (List Variant)
  | [] => some []
  | v :: vs =>
    match variantSchema v, castVariants vs with
    | some w, some ws => some (w :: ws)
    | _, _ => none

/-- Cast every review of a body, numbering the sub-documents from `oid`. -/
def castReviews (oid : ObjectId) (now : Nat) : List ReviewInput → Option (List Review)
  | [] => some []
  | r :: rs =>
    match reviewSchema oid now r, castReviews (oid + 1) now rs with
    | some w, some ws => some (w :: ws)
    | _, _ => none

/-- Casting with `productSchema`: `name` required, `createdAt` has `default: Date.now`;
the pre-save hook sets `updatedAt`. -/
def productSchema (oid : ObjectId) (now : Nat) (b : ProductInput) : Option Product :=
  match b.name, castVariants b.variants, castReviews (oid + 1) now b.reviews with
  | some name, some variants, some reviews =>
    some { _id := oid, name := name, description := b.description, categories := b.categories,
           variants := variants, reviews := reviews, createdAt := now, updatedAt := some now }
  | _, _, _ => none

/-! ## The store -/

/-- The `products` collection in natural order, and the next ObjectId to hand out. -/
structure Store where
  docs : List Product
  nextOid : ObjectId

/-- The store before any request. -/
def Store.empty : Store := { docs := [], nextOid := 0 }

/-- `Product.findById(id)`: the first document with that `_id`. -/
def findById (id : ObjectId) : List Product → Option Product
  | [] => none
  | p :: ps => if p._id = id then some p else findById id ps

/-- Replace the first document whose `_id` is that of `q` by `q` (the write of `save()`). -/
def replaceDoc (q : Product) : List Product → List Product
  | [] => []
  | p :: ps => if p._id = q._id then q :: ps else p :: replaceDoc q ps

/-- Index of the first element satisfying `c`. -/
def firstIndex {α : Type} (c : α → Bool) : List α → Option Nat
  | [] => none
  | a :: as => if c a then some 0 else (firstIndex c as).map (fun i => i + 1)

/-- Filter `{ _id: id, 'variants.sku': sku, 'variants.stock': { $gte: qty } }` evaluated on
one document.  The three conditions are independent: the second holds when some variant has
that sku, the third when some variant has enough stock.  On a match the answer is the array
index bound to the positional `$` of the update, which is the index recorded by the last
array condition evaluated, `'variants.stock'`. -/
def purchaseQuery (id : ObjectId) (sku : String) (qty : ℚ) (p : Product) : Option Nat :=
  if p._id = id then
    if p.variants.any (fun v => v.sku == sku) then
      firstIndex (fun v => decide (qty ≤ v.stock)) p.variants
    else none
  else none

/-- Add `d` to the stock of the variant at index `i`. -/
def incAt (d : ℚ) : Nat → List Variant → List Variant
  | _, [] => []
  | 0, v :: vs => { v with stock := v.stock + d } :: vs
  | i + 1, v :: vs => v :: incAt d i vs

/-- Update `{ $inc: { 'variants.$.stock': d } }` with `$` bound to index `i`. -/
def incStock (d : ℚ) (i : Nat) (p : Product) : Product :=
  { p with variants := incAt d i p.variants }

/-- `Product.findOneAndUpdate(filter, update, { new: true })`: the first document matching
the filter is updated in place; the answer is the new collection and the updated document,
or `none` when no document matches. -/
def findOneAndUpdate (query : Product → Option Nat) (update : Nat → Product → Product) :
    List Product → Option (List Product × Product)
  | [] => none
  | p :: ps =>
    match query p with
    | some i => some (update i p :: ps, update i p)
    | none =>
      match findOneAndUpdate query update ps with
      | some r => some (p :: r.1, r.2)
      | none => none

/-! ## HTTP layer -/

/-- The `:id` path parameter: a string that casts to an ObjectId, or one that does not. -/
inductive IdParam where
  | oid (n : ObjectId)
  | malformed (raw : String)

/-- Exceptions of the data layer whose `err.message` ends up in a response. -/
inductive StoreError where
  | validation
  | cast
  | badValue
  | typeError
deriving DecidableEq

/-- The plain object `rev` built by the review route. -/
structure ReviewEcho where
  name : String
  rating : Option ℚ
  comment : Option String
  user : Option ObjectId
deriving DecidableEq

/-- Row of the avg-rating answer; `_id` is absent in the fallback object. -/
structure AvgRating where
  _id : Option ObjectId
  avgRating : Option ℚ
  count : Nat
deriving DecidableEq

/-- Row of the category-stats answer. -/
structure CategoryCount where
  _id : String
  count : Nat
deriving DecidableEq

/-- JSON bodies sent by the routes. -/
inductive Body where
  | product (p : Product)
  | products (ps : List Product)
  | error (message : String)
  | thrown (e : StoreError)
  | detail (product : Product) (avgRating : Option ℚ) (reviewsCount : Nat)
  | reviewAdded (message : String) (review : ReviewEcho)
  | purchased (message : String) (product : Product)
  | rating (r : AvgRating)
  | stats (rows : List CategoryCount)
deriving DecidableEq

/-- An HTTP response: status code and JSON body. -/
structure Response where
  status : Nat
  body : Body
deriving DecidableEq

/-- Route `router.post('/')`: `Product.create(req.body)` casts the body, applies the
defaults, runs the validators and inserts the document. -/
def postProducts (now : Nat) (s : Store) (body : ProductInput) : Store × Response :=
  match productSchema s.nextOid now body with
  | none => (s, { status := 400, body := Body.thrown StoreError.validation })
  | some p =>
    if p.validate then
      ({ docs := s.docs ++ [p], nextOid := s.nextOid + 1 + p.reviews.length },
       { status := 201, body := Body.product p })
    else (s, { status := 400, body := Body.thrown StoreError.validation })

/-- Query string of `GET /api/products`.  A numeral in the query string is represented by
the integer it denotes. -/
structure ListQuery where
  category : Option String
  search : Option String
  page : Option Int
  limit : Option Int

/-- The filter object built by the list route.  `if (category)` and `if (search)` are
truthiness tests: an absent or empty string adds no condition.  `categories: category`
holds when the array contains the label; `$text` is answered by the text index of the
store, a parameter of the model. -/
def listFilter (textIndex : String → Product → Bool) (category search : Option String)
    (p : Product) : Bool :=
  (match category with
   | some c => c == "" || p.categories.contains c
   | none => true) &&
  (match search with
   | some t => t == "" || textIndex t p
   | none => true)

/-- Route `router.get('/')`: `find(query).skip((page-1)*limit).limit(parseInt(limit))`.
The store refuses a negative skip, treats `limit(0)` as no limit and a negative limit as
its absolute value. -/
def getProducts (textIndex : String → Product → Bool) (s : Store) (q : ListQuery) : Response :=
  if (q.page.getD 1 - 1) * q.limit.getD 12 < 0 then
    { status := 500, body := Body.thrown StoreError.badValue }
  else if q.limit.getD 12 = 0 then
    { status := 200,
      body := Body.products
        ((s.docs.filter (listFilter textIndex q.category q.search)).drop
          ((q.page.getD 1 - 1) * q.limit.getD 12).toNat) }
  else
    { status := 200,
      body := Body.products
        (((s.docs.filter (listFilter textIndex q.category q.search)).drop
          ((q.page.getD 1 - 1) * q.limit.getD 12).toNat).take (q.limit.getD 12).natAbs) }

/-- The expression `reviews.reduce((s,r) => s + r.rating, 0)`. -/
def sumRatings (reviews : List Review) : ℚ :=
  reviews.foldl (fun s r => s + r.rating) 0

/-- Route `router.get('/:id')`. -/
def getProductById (s : Store) (id : IdParam) : Response :=
  match id with
  | IdParam.malformed _ => { status := 400, body := Body.error "Invalid id" }
  | IdParam.oid n =>
    match findById n s.docs with
    | none => { status := 404, body := Body.error "Not found" }
    | some product =>
      { status := 200,
        body := Body.detail product
          (if product.reviews.length ≠ 0 then
            some (sumRatings product.reviews / product.reviews.length)
           else none)
          product.reviews.length }

/-- The expression `req.body.name || 'Anonymous'`. -/
def nameOrAnonymous : Option String → String
  | some n => if n = "" then "Anonymous" else n
  | none => "Anonymous"

/-- Route `router.post('/:id/reviews')`: the review is pushed on the loaded document and
`save()` validates the document, sets `updatedAt` in the pre-save hook and writes it. -/
def postReviews (now : Nat) (s : Store) (id : IdParam) (body : ReviewInput) : Store × Response :=
  match id with
  | IdParam.malformed _ => (s, { status := 400, body := Body.thrown StoreError.cast })
  | IdParam.oid n =>
    match findById n s.docs with
    | none => (s, { status := 404, body := Body.error "Not found" })
    | some p =>
      match reviewSchema s.nextOid now
          { user := body.user, name := some (nameOrAnonymous body.name), rating := body.rating,
            comment := body.comment } with
      | none => (s, { status := 400, body := Body.thrown StoreError.validation })
      | some r =>
        if ({ p with reviews := p.reviews ++ [r], updatedAt := some now } : Product).validate then
          ({ docs := replaceDoc { p with reviews := p.reviews ++ [r], updatedAt := some now } s.docs,
             nextOid := s.nextOid + 1 },
           { status := 201,
             body := Body.reviewAdded "Review added"
               { name := nameOrAnonymous body.name, rating := body.rating,
                 comment := body.comment, user := body.user } })
        else (s, { status := 400, body := Body.thrown StoreError.validation })

/-- Body of `POST /api/products/:id/purchase`. -/
structure PurchaseBody where
  sku : String
  qty : Option ℚ

/-- Route `router.post('/:id/purchase')`; `qty = 1` is the destructuring default. -/
def postPurchase (s : Store) (id : IdParam) (body : PurchaseBody) : Store × Response :=
  match id with
  | IdParam.malformed _ => (s, { status := 500, body := Body.thrown StoreError.cast })
  | IdParam.oid n =>
    match findOneAndUpdate (purchaseQuery n body.sku (body.qty.getD 1))
        (incStock (-(body.qty.getD 1))) s.docs with
    | none => (s, { status := 400, body := Body.error "Insufficient stock or invalid SKU" })
    | some r =>
      ({ s with docs := r.1 }, { status := 200, body := Body.purchased "Purchase successful" r.2 })

/-! ### Aggregation stages -/

/-- Stage `$group`, one key at a time: the accumulator of `k` is advanced by `f`, a key
seen for the first time starts from `init` and is added after the existing groups. -/
def upsert {κ α : Type} [DecidableEq κ] (k : κ) (f : α → α) (init : α) :
    List (κ × α) → List (κ × α)
  | [] => [(k, f init)]
  | g :: gs => if g.1 = k then (g.1, f g.2) :: gs else g :: upsert k f init gs

/-- Stage `$group`: documents are folded into the group of their key. -/
def group {δ κ α : Type} [DecidableEq κ] (key : δ → κ) (init : α) (step : α → δ → α)
    (docs : List δ) : List (κ × α) :=
  docs.foldl (fun gs d => upsert (key d) (fun a => step a d) init gs) []

/-- A product document after `$unwind` of `reviews`: `reviews` holds one review, or is
missing when the array was empty and the document was preserved. -/
structure UnwoundReview where
  doc : Product
  reviews : Option Review

/-- Stage `{ $unwind: { path: "$reviews", preserveNullAndEmptyArrays: true } }` on one
document. -/
def unwindReviews (p : Product) : List UnwoundReview :=
  match p.reviews with
  | [] => [{ doc := p, reviews := none }]
  | r :: rs => (r :: rs).map (fun x => { doc := p, reviews := some x })

/-- The stage applied to a stream of documents. -/
def unwindAllReviews : List Product → List UnwoundReview
  | [] => []
  | p :: ps => unwindReviews p ++ unwindAllReviews ps

/-- Accumulators of the avg-rating `$group`: running sum and number of the numeric values
seen by `$avg`, and the `$sum`. -/
structure RatingAcc where
  total : ℚ
  numeric : Nat
  count : Nat

/-- One document into the accumulators: `$avg: "$reviews.rating"` ignores a missing value,
`$cond: [{ $ifNull: ["$reviews", false] }, 1, 0]` is 1 when `reviews` is present. -/
def RatingAcc.step (a : RatingAcc) (d : UnwoundReview) : RatingAcc :=
  match d.reviews with
  | some r => { total := a.total + r.rating, numeric := a.numeric + 1, count := a.count + 1 }
  | none => { total := a.total, numeric := a.numeric, count := a.count + 0 }

/-- Value of `$avg`: null when no numeric value was seen. -/
def RatingAcc.avg (a : RatingAcc) : Option ℚ :=
  if a.numeric = 0 then none else some (a.total / a.numeric)

/-- Route `router.get('/:id/avg-rating')`.  Its first statement is
`mongoose.Types.ObjectId(req.params.id)`, a call of the ObjectId class without `new`.
`callableWithoutNew` tells what the installed mongoose does with such a call: up to mongoose 6
it returns an ObjectId (or throws on a malformed string), from mongoose 7 on it throws a
TypeError for every argument.  An exception goes to the `catch`, which answers 500.
Otherwise the pipeline runs: `$match`, `$unwind`, `$group`, then
`result || { avgRating: null, count: 0 }` on the first row. -/
def getAvgRating (callableWithoutNew : Bool) (s : Store) (id : IdParam) : Response :=
  if callableWithoutNew then
    match id with
    | IdParam.malformed _ => { status := 500, body := Body.thrown StoreError.cast }
    | IdParam.oid productId =>
      match group (fun d => d.doc._id) ({ total := 0, numeric := 0, count := 0 } : RatingAcc)
          RatingAcc.step (unwindAllReviews (s.docs.filter (fun p => p._id == productId))) with
      | [] =>
        { status := 200, body := Body.rating { _id := none, avgRating := none, count := 0 } }
      | g :: _ =>
        { status := 200,
          body := Body.rating { _id := some g.1, avgRating := g.2.avg, count := g.2.count } }
  else { status := 500, body := Body.thrown StoreError.typeError }

/-- Stage `{ $unwind: "$categories" }`: one document per element, none for an empty
array. -/
def unwindCategories : List Product → List (Product × String)
  | [] => []
  | p :: ps => p.categories.map (fun c => (p, c)) ++ unwindCategories ps

/-- Order of `{ $sort: { count: -1 } }`. -/
def countDesc (a b : CategoryCount) : Prop := b.count ≤ a.count

instance : DecidableRel countDesc := fun a b => inferInstanceAs (Decidable (b.count ≤ a.count))

/-- The category-stats pipeline: `$unwind`, `$group` with `count: { $sum: 1 }`, `$sort`. -/
def categoryStats (docs : List Product) : List CategoryCount :=
  ((group (fun d => d.2) 0 (fun n _ => n + 1) (unwindCategories docs)).map
    (fun g => ({ _id := g.1, count := g.2 } : CategoryCount))).insertionSort countDesc

/-- Route `router.get('/analytics/category-stats')`. -/
def getCategoryStats (s : Store) : Response :=
  { status := 200, body := Body.stats (categoryStats s.docs) }

/-! ## Request sequences -/

/-- The requests that write to the store. -/
inductive Request where
  | create (now : Nat) (body : ProductInput)
  | addReview (now : Nat) (id : IdParam) (body : ReviewInput)
  | purchase (id : IdParam) (body : PurchaseBody)

/-- One request against the store. -/
def handle (s : Store) : Request → Store × Response
  | Request.create now body => postProducts now s body
  | Request.addReview now id body => postReviews now s id body
  | Request.purchase id body => postPurchase s id body

/-- The store after a sequence of requests. -/
def run (s : Store) : List Request → Store
  | [] => s
  | r :: rs => run (handle s r).1 rs

/-- The responses to a sequence of requests. -/
def responses (s : Store) : List Request → List Response
  | [] => []
  | r :: rs => (handle s r).2 :: responses (handle s r).1 rs

/-- States reachable from the empty store. -/
def Reachable (s : Store) : Prop := ∃ rs : List Request, run Store.empty rs = s

/-! ## Predicates and measures used in the statements -/

/-- Every stored document passes the validators of `productSchema`. -/
def Store.Valid (s : Store) : Prop := ∀ p ∈ s.docs, p.validate = true

/-- Sum of the stocks of all variants of all products (a measure used in the statements). -/
def totalStock (docs : List Product) : ℚ :=
  (docs.map (fun p => (p.variants.map Variant.stock).sum)).sum

/-- The groups `gs` are the tally of the labels `seen`: one group per distinct label, whose
count is the number of occurrences of the label. -/
def Tally {κ : Type} [DecidableEq κ] (gs : List (κ × Nat)) (seen : List κ) : Prop :=
  (gs.map Prod.fst).Nodup ∧ (∀ c, c ∈ gs.map Prod.fst ↔ c ∈ seen) ∧
    (∀ g ∈ gs, g.2 = seen.count g.1) ∧ (gs.map Prod.snd).sum = seen.length

instance : IsTotal CategoryCount countDesc := ⟨fun a b => Nat.le_total b.count a.count⟩

instance : IsTrans CategoryCount countDesc := ⟨fun _ _ _ hab hbc => Nat.le_trans hbc hab⟩

/-- Identifiers are unique and below the counter. -/
def Store.Fresh (s : Store) : Prop :=
  (s.docs.map Product._id).Nodup ∧ ∀ p ∈ s.docs, p._id < s.nextOid

/-! ## Sample data -/

/-- A variant with the given sku and stock, price 10, no colour or size. -/
def sampleVariant (sku : String) (stock : ℚ) : Variant :=
  { sku := sku, color := none, size := none, price := 10, stock := stock }

/-- A product `Tee` with `_id` 0 and two variants, `A` and `B`. -/
def twoVariantProduct (a b : ℚ) : Product :=
  { _id := 0, name := "Tee", description := none, categories := [],
    variants := [sampleVariant "A" a, sampleVariant "B" b], reviews := [],
    createdAt := 0, updatedAt := some 0 }

/-- A store holding only `twoVariantProduct a b`. -/
def twoVariantStore (a b : ℚ) : Store :=
  { docs := [twoVariantProduct a b], nextOid := 1 }

/-- Body of the scenario `{name:"Tee", variants:[{sku:"T1",price:10,stock:2}]}`. -/
def teeInput : ProductInput :=
  { name := some "Tee", description := none, categories := [],
    variants := [{ sku := some "T1", color := none, size := none, price := some 10,
                   stock := some 2 }],
    reviews := [] }

/-- The product of the scenario once stored, with the stock of `T1` as given. -/
def teeProduct (stock : ℚ) : Product :=
  { _id := 0, name := "Tee", description := none, categories := [],
    variants := [sampleVariant "T1" stock], reviews := [], createdAt := 0, updatedAt := some 0 }

/-- A stored review with the given id and rating, as the review route writes it when the
body holds only a rating. -/
def sampleReview (oid : ObjectId) (rating : ℚ) : Review :=
  { _id := oid, user := none, name := some "Anonymous", rating := rating, comment := none,
    createdAt := 0 }

/-- The product `Tee` with the given reviews. -/
def reviewedTee (reviews : List Review) : Product :=
  { _id := 0, name := "Tee", description := none, categories := [],
    variants := [sampleVariant "T1" 2], reviews := reviews, createdAt := 0,
    updatedAt := some 0 }

/-- A review body holding only a rating. -/
def ratingOnly (rating : ℚ) : ReviewInput :=
  { user := none, name := none, rating := some rating, comment := none }

/-- A product with the given id and categories, without variants or reviews. -/
def labelled (oid : ObjectId) (categories : List String) : Product :=
  { _id := oid, name := "Item", description := none, categories := categories, variants := [],
    reviews := [], createdAt := 0, updatedAt := some 0 }

/-- Products with categories `["Shirts"]`, `["Shirts","Sale"]`, `["Pants"]`. -/
def shopDocs : List Product :=
  [labelled 0 ["Shirts"], labelled 1 ["Shirts", "Sale"], labelled 2 ["Pants"]]

/-! ## Lemmas on the store operations -/

theorem findOneAndUpdate_eq_none {query : Product → Option Nat} {update : Nat → Product → Product}
    {docs : List Product} :
    findOneAndUpdate query update docs = none ↔ ∀ p ∈ docs, query p = none := by
  induction docs with
  | nil => simp [findOneAndUpdate]
  | cons p ps ih =>
    cases hq : query p with
    | some i => simp [findOneAndUpdate, hq]
    | none =>
      cases hr : findOneAndUpdate query update ps with
      | none => simpa [findOneAndUpdate, hq, hr] using ih.mp hr
      | some r =>
        simp only [findOneAndUpdate, hq, hr, List.mem_cons, forall_eq_or_imp, true_and]
        constructor
        · intro h; cases h
        · intro h; rw [ih.mpr h] at hr; cases hr

theorem findOneAndUpdate_eq_some {query : Product → Option Nat} {update : Nat → Product → Product}
    {docs : List Product} {r : List Product × Product}
    (h : findOneAndUpdate query update docs = some r) :
    ∃ pre p post i, docs = pre ++ p :: post ∧ (∀ x ∈ pre, query x = none) ∧ query p = some i ∧
      r = (pre ++ update i p :: post, update i p) := by
  induction docs generalizing r with
  | nil => simp [findOneAndUpdate] at h
  | cons p ps ih =>
    cases hq : query p with
    | some i =>
      simp only [findOneAndUpdate, hq, Option.some.injEq] at h
      exact ⟨[], p, ps, i, rfl, by simp, hq, by simp [← h]⟩
    | none =>
      cases hr : findOneAndUpdate query update ps with
      | none => simp [findOneAndUpdate, hq, hr] at h
      | some r1 =>
        simp only [findOneAndUpdate, hq, hr, Option.some.injEq] at h
        obtain ⟨pre, p1, post, i, hd, hpre, hp, hr1⟩ := ih hr
        refine ⟨p :: pre, p1, post, i, by simp [hd], ?_, hp, ?_⟩
        · intro x hx
          rcases List.mem_cons.mp hx with rfl | hx
          · exact hq
          · exact hpre x hx
        · simp [← h, hr1]

theorem firstIndex_eq_none {α : Type} {c : α → Bool} {l : List α} :
    firstIndex c l = none ↔ ∀ a ∈ l, c a = false := by
  induction l with
  | nil => simp [firstIndex]
  | cons a as ih =>
    by_cases hc : c a = true
    · simp [firstIndex, hc]
    · simp [firstIndex, hc, ih]

theorem incAt_firstIndex_validate {qty : ℚ} {vs : List Variant} {i : Nat}
    (hi : firstIndex (fun v => decide (qty ≤ v.stock)) vs = some i)
    (hv : ∀ v ∈ vs, v.validate = true) : ∀ w ∈ incAt (-qty) i vs, w.validate = true := by
  induction vs generalizing i with
  | nil => simp [firstIndex] at hi
  | cons v vs ih =>
    by_cases hc : qty ≤ v.stock
    · simp only [firstIndex, hc, decide_True, if_true, Option.some.injEq] at hi
      subst hi
      intro w hw
      simp only [incAt, List.mem_cons] at hw
      rcases hw with rfl | hw
      · have := hv v (List.mem_cons_self _ _)
        simp only [Variant.validate, Bool.and_eq_true, decide_eq_true_eq] at this ⊢
        exact ⟨this.1, by linarith⟩
      · exact hv w (List.mem_cons_of_mem _ hw)
    · simp only [firstIndex, hc, decide_False, Bool.false_eq_true, if_false, Option.map_eq_some'] at hi
      obtain ⟨j, hj, rfl⟩ := hi
      intro w hw
      simp only [incAt, List.mem_cons] at hw
      rcases hw with rfl | hw
      · exact hv w (List.mem_cons_self _ _)
      · exact ih hj (fun x hx => hv x (List.mem_cons_of_mem _ hx)) w hw

theorem mem_replaceDoc {q : Product} {docs : List Product} {x : Product}
    (h : x ∈ replaceDoc q docs) : x ∈ docs ∨ x = q := by
  induction docs with
  | nil => simp [replaceDoc] at h
  | cons p ps ih =>
    by_cases hp : p._id = q._id
    · simp only [replaceDoc, hp, if_true, List.mem_cons] at h
      rcases h with rfl | h
      · exact Or.inr rfl
      · exact Or.inl (List.mem_cons_of_mem _ h)
    · simp only [replaceDoc, hp, if_false, List.mem_cons] at h
      rcases h with rfl | h
      · exact Or.inl (List.mem_cons_self _ _)
      · rcases ih h with h1 | h1
        · exact Or.inl (List.mem_cons_of_mem _ h1)
        · exact Or.inr h1

theorem findById_eq_some {id : ObjectId} {docs : List Product} {p : Product}
    (h : findById id docs = some p) : p ∈ docs ∧ p._id = id := by
  induction docs with
  | nil => simp [findById] at h
  | cons x xs ih =>
    by_cases hx : x._id = id
    · simp only [findById, hx, if_true, Option.some.injEq] at h
      subst h
      exact ⟨List.mem_cons_self _ _, hx⟩
    · simp only [findById, hx, if_false] at h
      exact ⟨List.mem_cons_of_mem _ (ih h).1, (ih h).2⟩

theorem postProducts_valid {now : Nat} {s : Store} {body : ProductInput} (hs : s.Valid) :
    (postProducts now s body).1.Valid := by
  unfold postProducts
  cases hp : productSchema s.nextOid now body with
  | none => exact hs
  | some p =>
    by_cases hv : p.validate = true
    · simp only [hv, if_true]
      intro x hx
      rcases List.mem_append.mp hx with h | h
      · exact hs x h
      · simp only [List.mem_singleton] at h
        subst h
        exact hv
    · simp only [hv, if_false]
      exact hs

theorem postReviews_cases (now : Nat) (s : Store) (id : IdParam) (body : ReviewInput) :
    ((postReviews now s id body).1 = s ∧ (postReviews now s id body).2.status ≠ 201) ∨
    ∃ n p r, id = IdParam.oid n ∧ findById n s.docs = some p ∧
      reviewSchema s.nextOid now
        { user := body.user, name := some (nameOrAnonymous body.name), rating := body.rating,
          comment := body.comment } = some r ∧
      ({ p with reviews := p.reviews ++ [r], updatedAt := some now } : Product).validate = true ∧
      postReviews now s id body =
        ({ docs := replaceDoc { p with reviews := p.reviews ++ [r], updatedAt := some now } s.docs,
           nextOid := s.nextOid + 1 },
         { status := 201,
           body := Body.reviewAdded "Review added"
             { name := nameOrAnonymous body.name, rating := body.rating,
               comment := body.comment, user := body.user } }) := by
  unfold postReviews
  split
  · exact Or.inl ⟨rfl, by simp⟩
  · rename_i n
    split
    · exact Or.inl ⟨rfl, by simp⟩
    · rename_i p hf
      split
      · exact Or.inl ⟨rfl, by simp⟩
      · rename_i r hr
        split
        · rename_i hv
          exact Or.inr ⟨n, p, r, rfl, hf, hr, hv, rfl⟩
        · exact Or.inl ⟨rfl, by simp⟩

theorem postReviews_valid {now : Nat} {s : Store} {id : IdParam} {body : ReviewInput}
    (hs : s.Valid) : (postReviews now s id body).1.Valid := by
  rcases postReviews_cases now s id body with h | ⟨n, p, r, -, -, -, hv, he⟩
  · rw [h.1]; exact hs
  · rw [he]
    intro x hx
    rcases mem_replaceDoc hx with h | h
    · exact hs x h
    · subst h; exact hv

theorem incStock_validate {qty : ℚ} {p : Product} {i : Nat}
    (hi : firstIndex (fun v => decide (qty ≤ v.stock)) p.variants = some i)
    (hp : p.validate = true) : (incStock (-qty) i p).validate = true := by
  simp only [Product.validate, Bool.and_eq_true, List.all_eq_true, incStock] at hp ⊢
  exact ⟨⟨hp.1.1, incAt_firstIndex_validate hi hp.1.2⟩, hp.2⟩

theorem purchaseQuery_eq_some {id : ObjectId} {sku : String} {qty : ℚ} {p : Product} {i : Nat}
    (h : purchaseQuery id sku qty p = some i) :
    p._id = id ∧ (∃ v ∈ p.variants, v.sku = sku) ∧
      firstIndex (fun v => decide (qty ≤ v.stock)) p.variants = some i := by
  unfold purchaseQuery at h
  split at h
  · rename_i h1
    split at h
    · rename_i h2
      refine ⟨h1, ?_, h⟩
      simpa using h2
    · cases h
  · cases h

theorem postPurchase_cases (s : Store) (id : IdParam) (body : PurchaseBody) :
    ((postPurchase s id body).1 = s ∧ (postPurchase s id body).2.status ≠ 200) ∨
    ∃ n r, id = IdParam.oid n ∧
      findOneAndUpdate (purchaseQuery n body.sku (body.qty.getD 1))
        (incStock (-(body.qty.getD 1))) s.docs = some r ∧
      postPurchase s id body =
        ({ s with docs := r.1 },
         { status := 200, body := Body.purchased "Purchase successful" r.2 }) := by
  unfold postPurchase
  split
  · exact Or.inl ⟨rfl, by simp⟩
  · rename_i n
    split
    · exact Or.inl ⟨rfl, by simp⟩
    · rename_i r hf
      exact Or.inr ⟨n, r, rfl, hf, rfl⟩

theorem postPurchase_valid {s : Store} {id : IdParam} {body : PurchaseBody} (hs : s.Valid) :
    (postPurchase s id body).1.Valid := by
  rcases postPurchase_cases s id body with h | ⟨n, r, -, hf, he⟩
  · rw [h.1]; exact hs
  · rw [he]
    obtain ⟨pre, p, post, i, hd, -, hq, hr⟩ := findOneAndUpdate_eq_some hf
    subst hr
    intro x hx
    simp only [List.mem_append, List.mem_cons] at hx
    have hmem : ∀ y, y ∈ pre ∨ y = p ∨ y ∈ post → y ∈ s.docs := by
      intro y hy; rw [hd]; simpa using hy
    rcases hx with h | rfl | h
    · exact hs x (hmem x (Or.inl h))
    · exact incStock_validate (purchaseQuery_eq_some hq).2.2 (hs p (hmem p (Or.inr (Or.inl rfl))))
    · exact hs x (hmem x (Or.inr (Or.inr h)))

theorem handle_valid {s : Store} (r : Request) (hs : s.Valid) : (handle s r).1.Valid := by
  cases r with
  | create now body => exact postProducts_valid hs
  | addReview now id body => exact postReviews_valid hs
  | purchase id body => exact postPurchase_valid hs

theorem run_valid (rs : List Request) {s : Store} (hs : s.Valid) : (run s rs).Valid := by
  induction rs generalizing s with
  | nil => exact hs
  | cons r rs ih => exact ih (handle_valid r hs)

theorem reachable_valid {s : Store} (h : Reachable s) : s.Valid := by
  obtain ⟨rs, rfl⟩ := h
  exact run_valid rs (fun p hp => by simp [Store.empty] at hp)

theorem mem_incAt_firstIndex {qty : ℚ} {vs : List Variant} {i : Nat}
    (hi : firstIndex (fun v => decide (qty ≤ v.stock)) vs = some i) {w : Variant}
    (hw : w ∈ incAt (-qty) i vs) :
    w ∈ vs ∨ ∃ v ∈ vs, qty ≤ v.stock ∧ w = { v with stock := v.stock + -qty } := by
  induction vs generalizing i with
  | nil => simp [firstIndex] at hi
  | cons v vs ih =>
    by_cases hc : qty ≤ v.stock
    · simp only [firstIndex, hc, decide_True, if_true, Option.some.injEq] at hi
      subst hi
      simp only [incAt, List.mem_cons] at hw
      rcases hw with rfl | hw
      · exact Or.inr ⟨v, List.mem_cons_self _ _, hc, rfl⟩
      · exact Or.inl (List.mem_cons_of_mem _ hw)
    · simp only [firstIndex, hc, decide_False, Bool.false_eq_true, if_false,
        Option.map_eq_some'] at hi
      obtain ⟨j, hj, rfl⟩ := hi
      simp only [incAt, List.mem_cons] at hw
      rcases hw with rfl | hw
      · exact Or.inl (List.mem_cons_self _ _)
      · rcases ih hj hw with h | ⟨u, hu, hq, he⟩
        · exact Or.inl (List.mem_cons_of_mem _ h)
        · exact Or.inr ⟨u, List.mem_cons_of_mem _ hu, hq, he⟩

theorem forall₂_mem_left {α β : Type} {R : α → β → Prop} {l₁ : List α} {l₂ : List β}
    (h : List.Forall₂ R l₁ l₂) {a : α} (ha : a ∈ l₁) : ∃ b ∈ l₂, R a b := by
  induction h with
  | nil => cases ha
  | cons hab _ ih =>
    rcases List.mem_cons.mp ha with rfl | ha
    · exact ⟨_, List.mem_cons_self _ _, hab⟩
    · obtain ⟨b, hb, hr⟩ := ih ha
      exact ⟨b, List.mem_cons_of_mem _ hb, hr⟩

theorem castVariants_eq_some {vs : List VariantInput} {ws : List Variant}
    (h : castVariants vs = some ws) :
    List.Forall₂ (fun (i : VariantInput) (w : Variant) => variantSchema i = some w) vs ws := by
  induction vs generalizing ws with
  | nil =>
    simp only [castVariants, Option.some.injEq] at h
    subst h
    exact List.Forall₂.nil
  | cons v vs ih =>
    unfold castVariants at h
    split at h
    · rename_i w ws1 hw hws
      simp only [Option.some.injEq] at h
      subst h
      exact List.Forall₂.cons hw (ih hws)
    · cases h

theorem variantSchema_stock {i : VariantInput} {w : Variant} (h : variantSchema i = some w) :
    w.stock = i.stock.getD 0 := by
  unfold variantSchema at h
  split at h
  · simp only [Option.some.injEq] at h
    subst h
    rfl
  · cases h

theorem postProducts_cases (now : Nat) (s : Store) (body : ProductInput) :
    postProducts now s body = (s, { status := 400, body := Body.thrown StoreError.validation }) ∨
    ∃ p, productSchema s.nextOid now body = some p ∧ p.validate = true ∧
      postProducts now s body =
        ({ docs := s.docs ++ [p], nextOid := s.nextOid + 1 + p.reviews.length },
         { status := 201, body := Body.product p }) := by
  unfold postProducts
  split
  · exact Or.inl rfl
  · rename_i p hp
    split
    · rename_i hv
      exact Or.inr ⟨p, hp, hv, rfl⟩
    · exact Or.inl rfl

theorem productSchema_variants {oid : ObjectId} {now : Nat} {b : ProductInput} {p : Product}
    (h : productSchema oid now b = some p) : castVariants b.variants = some p.variants := by
  unfold productSchema at h
  split at h
  · rename_i name variants reviews hn hv hr
    simp only [Option.some.injEq] at h
    subst h
    exact hv
  · cases h

theorem validate_stock_nonneg {p : Product} (hp : p.validate = true) :
    ∀ v ∈ p.variants, 0 ≤ v.stock := by
  intro v hv
  simp only [Product.validate, Bool.and_eq_true, List.all_eq_true] at hp
  have := hp.1.2 v hv
  simp only [Variant.validate, Bool.and_eq_true, decide_eq_true_eq] at this
  exact this.2

theorem postPurchase_stock_nonneg {s : Store} {id : IdParam} {body : PurchaseBody}
    (hs : ∀ p ∈ s.docs, ∀ v ∈ p.variants, 0 ≤ v.stock) :
    ∀ p ∈ (postPurchase s id body).1.docs, ∀ v ∈ p.variants, 0 ≤ v.stock := by
  rcases postPurchase_cases s id body with h | ⟨n, r, -, hf, he⟩
  · rw [h.1]; exact hs
  · rw [he]
    obtain ⟨pre, p, post, i, hd, -, hq, hr⟩ := findOneAndUpdate_eq_some hf
    subst hr
    intro x hx
    simp only [List.mem_append, List.mem_cons] at hx
    have hmem : ∀ y, y ∈ pre ∨ y = p ∨ y ∈ post → y ∈ s.docs := by
      intro y hy; rw [hd]; simpa using hy
    rcases hx with h | rfl | h
    · exact hs x (hmem x (Or.inl h))
    · intro w hw
      rcases mem_incAt_firstIndex (purchaseQuery_eq_some hq).2.2 hw with h1 | ⟨u, hu, hle, rfl⟩
      · exact hs p (hmem p (Or.inr (Or.inl rfl))) w h1
      · show 0 ≤ u.stock + -(body.qty.getD 1)
        linarith
    · exact hs x (hmem x (Or.inr (Or.inr h)))

theorem purchaseQuery_eq_none_of_stock_lt {id : ObjectId} {sku : String} {qty : ℚ} {p : Product}
    (h : ∀ v ∈ p.variants, v.stock < qty) : purchaseQuery id sku qty p = none := by
  have : firstIndex (fun v => decide (qty ≤ v.stock)) p.variants = none := by
    rw [firstIndex_eq_none]
    intro v hv
    simpa using h v hv
  unfold purchaseQuery
  split
  · split
    · exact this
    · rfl
  · rfl

theorem purchaseQuery_eq_none_of_id_ne {id : ObjectId} (sku : String) (qty : ℚ) {p : Product}
    (h : p._id ≠ id) : purchaseQuery id sku qty p = none := by
  simp [purchaseQuery, h]

theorem firstIndex_lt_length {α : Type} {c : α → Bool} {l : List α} {i : Nat}
    (h : firstIndex c l = some i) : i < l.length := by
  induction l generalizing i with
  | nil => simp [firstIndex] at h
  | cons a as ih =>
    by_cases hc : c a = true
    · simp only [firstIndex, hc, if_true, Option.some.injEq] at h
      subst h
      simp
    · simp only [firstIndex, hc, Bool.false_eq_true, if_false, Option.map_eq_some'] at h
      obtain ⟨j, hj, rfl⟩ := h
      simpa using ih hj

theorem sum_stock_incAt (d : ℚ) {i : Nat} {vs : List Variant} (h : i < vs.length) :
    ((incAt d i vs).map Variant.stock).sum = (vs.map Variant.stock).sum + d := by
  induction vs generalizing i with
  | nil => simp at h
  | cons v vs ih =>
    cases i with
    | zero => simp only [incAt, List.map_cons, List.sum_cons]; ring
    | succ j =>
      have hj : j < vs.length := by simpa using h
      simp only [incAt, List.map_cons, List.sum_cons, ih hj]
      ring

theorem incAt_zero (i : Nat) (vs : List Variant) : incAt 0 i vs = vs := by
  induction vs generalizing i with
  | nil => simp [incAt]
  | cons v vs ih =>
    cases i with
    | zero => simp [incAt]
    | succ j => simp [incAt, ih]

theorem totalStock_append_cons (pre post : List Product) (p : Product) :
    totalStock (pre ++ p :: post) =
      totalStock pre + (p.variants.map Variant.stock).sum + totalStock post := by
  simp [totalStock, add_assoc]

theorem purchaseQuery_isSome_of_nonpos {id : ObjectId} {sku : String} {qty : ℚ} {p : Product}
    (hid : p._id = id) (hsku : ∃ v ∈ p.variants, v.sku = sku)
    (hstock : ∀ v ∈ p.variants, 0 ≤ v.stock) (hq : qty ≤ 0) :
    purchaseQuery id sku qty p ≠ none := by
  obtain ⟨v, hv, hvs⟩ := hsku
  have hany : (p.variants.any fun v => v.sku == sku) = true := by
    simp only [List.any_eq_true, beq_iff_eq]
    exact ⟨v, hv, hvs⟩
  simp only [purchaseQuery, hid, hany, if_true, ne_eq, firstIndex_eq_none, not_forall]
  exact ⟨v, hv, by simpa using le_trans hq (hstock v hv)⟩

theorem foldl_add_rating (a : ℚ) (rs : List Review) :
    rs.foldl (fun s r => s + r.rating) a = a + (rs.map Review.rating).sum := by
  induction rs generalizing a with
  | nil => simp
  | cons r rs ih => simp [List.foldl_cons, ih, add_assoc]

theorem sumRatings_eq (rs : List Review) : sumRatings rs = (rs.map Review.rating).sum := by
  simp [sumRatings, foldl_add_rating]

theorem filter_id_eq_nil {n : ObjectId} {docs : List Product} (h : findById n docs = none) :
    docs.filter (fun p => p._id == n) = [] := by
  induction docs with
  | nil => rfl
  | cons x xs ih =>
    by_cases hx : x._id = n
    · simp [findById, hx] at h
    · simp only [findById, hx, if_false] at h
      simp [List.filter_cons, hx, ih h]

theorem filter_id_eq_singleton {docs : List Product} {p : Product}
    (hnd : (docs.map Product._id).Nodup) (hp : p ∈ docs) :
    docs.filter (fun q => q._id == p._id) = [p] := by
  induction docs with
  | nil => cases hp
  | cons x xs ih =>
    simp only [List.map_cons, List.nodup_cons, List.mem_map, not_exists, not_and] at hnd
    rcases List.mem_cons.mp hp with rfl | hp
    · have : xs.filter (fun q => q._id == p._id) = [] := by
        rw [List.filter_eq_nil_iff]
        intro q hq
        simpa using hnd.1 q hq
      simp [List.filter_cons, this]
    · have hx : ¬ x._id = p._id := fun h => hnd.1 p hp h.symm
      simp [List.filter_cons, hx, ih hnd.2 hp]

theorem foldl_upsert_same_key {δ κ α : Type} [DecidableEq κ] (key : δ → κ) (init : α)
    (step : α → δ → α) (k : κ) (docs : List δ) (hk : ∀ d ∈ docs, key d = k) (a : α) :
    docs.foldl (fun gs d => upsert (key d) (fun x => step x d) init gs) [(k, a)] =
      [(k, docs.foldl step a)] := by
  induction docs generalizing a with
  | nil => rfl
  | cons d ds ih =>
    have hd : key d = k := hk d (List.mem_cons_self _ _)
    simp only [List.foldl_cons, upsert, hd, if_true]
    exact ih (fun x hx => hk x (List.mem_cons_of_mem _ hx)) _

theorem group_same_key {δ κ α : Type} [DecidableEq κ] (key : δ → κ) (init : α)
    (step : α → δ → α) (k : κ) (d : δ) (docs : List δ) (hk : ∀ x ∈ d :: docs, key x = k) :
    group key init step (d :: docs) = [(k, (d :: docs).foldl step init)] := by
  have hd : key d = k := hk d (List.mem_cons_self _ _)
  simp only [group, List.foldl_cons, upsert, hd]
  exact foldl_upsert_same_key key init step k docs
    (fun x hx => hk x (List.mem_cons_of_mem _ hx)) _

theorem foldl_ratingAcc (p : Product) (rs : List Review) (a : RatingAcc) :
    (rs.map (fun x => ({ doc := p, reviews := some x } : UnwoundReview))).foldl RatingAcc.step a =
      { total := a.total + (rs.map Review.rating).sum, numeric := a.numeric + rs.length,
        count := a.count + rs.length } := by
  induction rs generalizing a with
  | nil => simp
  | cons r rs ih =>
    simp only [List.map_cons, List.foldl_cons, ih, RatingAcc.step, List.sum_cons,
      List.length_cons, RatingAcc.mk.injEq]
    refine ⟨by ring, by omega, by omega⟩

theorem getAvgRating_of_unique {s : Store} {p : Product}
    (hnd : (s.docs.map Product._id).Nodup) (hp : p ∈ s.docs) :
    getAvgRating true s (IdParam.oid p._id) =
      { status := 200,
        body := Body.rating
          { _id := some p._id,
            avgRating :=
              if p.reviews = [] then none
              else some ((p.reviews.map Review.rating).sum / p.reviews.length),
            count := p.reviews.length } } := by
  simp only [getAvgRating, if_true, filter_id_eq_singleton hnd hp, unwindAllReviews,
    List.append_nil]
  cases hr : p.reviews with
  | nil =>
    simp [unwindReviews, hr, group, upsert, RatingAcc.step, RatingAcc.avg]
  | cons r rs =>
    have hu : unwindReviews p =
        ({ doc := p, reviews := some r } : UnwoundReview) ::
          rs.map (fun x => ({ doc := p, reviews := some x } : UnwoundReview)) := by
      simp [unwindReviews, hr]
    rw [hu, group_same_key _ _ _ p._id]
    · rw [← List.map_cons (fun x => ({ doc := p, reviews := some x } : UnwoundReview)) r rs,
        foldl_ratingAcc]
      simp [RatingAcc.avg]
    · intro x hx
      simp only [List.mem_cons, List.mem_map] at hx
      rcases hx with rfl | ⟨y, -, rfl⟩ <;> rfl

theorem mem_keys_upsert {κ α : Type} [DecidableEq κ] (k : κ) (f : α → α) (init : α)
    (gs : List (κ × α)) (c : κ) :
    c ∈ (upsert k f init gs).map Prod.fst ↔ c = k ∨ c ∈ gs.map Prod.fst := by
  induction gs with
  | nil => simp [upsert]
  | cons g gs ih =>
    by_cases hg : g.1 = k
    · simp only [upsert, hg, if_true, List.map_cons, List.mem_cons]
      tauto
    · simp only [upsert, hg, if_false, List.map_cons, List.mem_cons, ih]
      tauto

theorem nodup_keys_upsert {κ α : Type} [DecidableEq κ] (k : κ) (f : α → α) (init : α)
    (gs : List (κ × α)) (h : (gs.map Prod.fst).Nodup) :
    ((upsert k f init gs).map Prod.fst).Nodup := by
  induction gs with
  | nil => simp [upsert]
  | cons g gs ih =>
    simp only [List.map_cons, List.nodup_cons] at h
    by_cases hg : g.1 = k
    · simp only [upsert, hg, if_true, List.map_cons, List.nodup_cons]
      exact ⟨hg ▸ h.1, h.2⟩
    · simp only [upsert, hg, if_false, List.map_cons, List.nodup_cons, mem_keys_upsert]
      exact ⟨by simpa using h.1, ih h.2⟩

theorem mem_upsert {κ α : Type} [DecidableEq κ] {k : κ} {f : α → α} {init : α}
    {gs : List (κ × α)} {g : κ × α} (hnd : (gs.map Prod.fst).Nodup)
    (h : g ∈ upsert k f init gs) :
    (g.1 ≠ k ∧ g ∈ gs) ∨
      (g.1 = k ∧ ((∃ a, (k, a) ∈ gs ∧ g.2 = f a) ∨ (k ∉ gs.map Prod.fst ∧ g.2 = f init))) := by
  induction gs with
  | nil =>
    simp only [upsert, List.mem_singleton] at h
    subst h
    exact Or.inr ⟨rfl, Or.inr ⟨by simp, rfl⟩⟩
  | cons x xs ih =>
    simp only [List.map_cons, List.nodup_cons] at hnd
    by_cases hx : x.1 = k
    · simp only [upsert, hx, if_true, List.mem_cons] at h
      rcases h with rfl | h
      · exact Or.inr ⟨rfl, Or.inl ⟨x.2, by simp [← hx], rfl⟩⟩
      · refine Or.inl ⟨?_, List.mem_cons_of_mem _ h⟩
        intro hg
        exact hnd.1 (List.mem_map.mpr ⟨g, h, by rw [hg, hx]⟩)
    · simp only [upsert, hx, if_false, List.mem_cons] at h
      rcases h with rfl | h
      · exact Or.inl ⟨hx, List.mem_cons_self _ _⟩
      · rcases ih hnd.2 h with ⟨h1, h2⟩ | ⟨h1, ⟨a, ha, hfa⟩ | ⟨hk, hfi⟩⟩
        · exact Or.inl ⟨h1, List.mem_cons_of_mem _ h2⟩
        · exact Or.inr ⟨h1, Or.inl ⟨a, List.mem_cons_of_mem _ ha, hfa⟩⟩
        · refine Or.inr ⟨h1, Or.inr ⟨?_, hfi⟩⟩
          simp only [List.map_cons, List.mem_cons, not_or]
          exact ⟨fun hkx => hx hkx.symm, hk⟩

theorem sum_counts_upsert {κ : Type} [DecidableEq κ] (k : κ) (gs : List (κ × Nat)) :
    ((upsert k (fun n => n + 1) 0 gs).map Prod.snd).sum = (gs.map Prod.snd).sum + 1 := by
  induction gs with
  | nil => simp [upsert]
  | cons g gs ih =>
    by_cases hg : g.1 = k
    · simp only [upsert, hg, if_true, List.map_cons, List.sum_cons]
      omega
    · simp only [upsert, hg, if_false, List.map_cons, List.sum_cons, ih]
      omega

theorem tally_upsert {κ : Type} [DecidableEq κ] {gs : List (κ × Nat)} {seen : List κ} (k : κ)
    (h : Tally gs seen) : Tally (upsert k (fun n => n + 1) 0 gs) (k :: seen) := by
  obtain ⟨hnd, hmem, hcount, hsum⟩ := h
  refine ⟨nodup_keys_upsert k _ 0 gs hnd, ?_, ?_, ?_⟩
  · intro c
    rw [mem_keys_upsert, List.mem_cons, hmem]
  · intro g hg
    rcases mem_upsert hnd hg with ⟨h1, h2⟩ | ⟨h1, ⟨a, ha, hfa⟩ | ⟨hk, hfi⟩⟩
    · rw [List.count_cons_of_ne h1]
      exact hcount g h2
    · have hka : a = seen.count k := hcount (k, a) ha
      rw [h1, List.count_cons_self, hfa, hka]
    · rw [h1, List.count_cons_self, hfi]
      have : seen.count k = 0 := List.count_eq_zero.mpr (fun hs => hk ((hmem k).mpr hs))
      omega
  · rw [sum_counts_upsert, hsum, List.length_cons]

theorem tally_foldl {δ κ : Type} [DecidableEq κ] (key : δ → κ) (ds : List δ)
    {gs : List (κ × Nat)} {seen : List κ} (h : Tally gs seen) :
    Tally (ds.foldl (fun gs d => upsert (key d) (fun n => n + 1) 0 gs) gs)
      ((ds.map key).reverse ++ seen) := by
  induction ds generalizing gs seen with
  | nil => simpa using h
  | cons d ds ih =>
    have := ih (tally_upsert (key d) h)
    simpa using this

theorem tally_group {δ κ : Type} [DecidableEq κ] (key : δ → κ) (ds : List δ) :
    Tally (group key 0 (fun n _ => n + 1) ds) (ds.map key).reverse := by
  have h0 : Tally ([] : List (κ × Nat)) [] := ⟨by simp, by simp, by simp, by simp⟩
  simpa [group] using tally_foldl key ds h0

theorem count_unwindCategories (docs : List Product) (c : String) :
    ((unwindCategories docs).map Prod.snd).count c =
      (docs.map (fun p => p.categories.count c)).sum := by
  induction docs with
  | nil => simp [unwindCategories]
  | cons p ps ih =>
    simp only [unwindCategories, List.map_append, List.map_map, List.count_append, ih,
      List.map_cons, List.sum_cons]
    congr 1
    have : (Prod.snd ∘ fun c => (p, c)) = (id : String → String) := rfl
    rw [this, List.map_id]

theorem length_unwindCategories (docs : List Product) :
    (unwindCategories docs).length = (docs.map (fun p => p.categories.length)).sum := by
  induction docs with
  | nil => simp [unwindCategories]
  | cons p ps ih => simp [unwindCategories, ih]

theorem mem_unwindCategories (docs : List Product) (c : String) :
    c ∈ (unwindCategories docs).map Prod.snd ↔ ∃ p ∈ docs, c ∈ p.categories := by
  induction docs with
  | nil => simp [unwindCategories]
  | cons p ps ih =>
    simp only [unwindCategories, List.map_append, List.mem_append, ih, List.mem_cons,
      exists_eq_or_imp, List.map_map]
    have : (Prod.snd ∘ fun c => (p, c)) = (id : String → String) := rfl
    rw [this, List.map_id]

theorem postReviews_outcome (now : Nat) (s : Store) (n : ObjectId) (p : Product)
    (body : ReviewInput) (hf : findById n s.docs = some p) :
    postReviews now s (IdParam.oid n) body =
        (s, { status := 400, body := Body.thrown StoreError.validation }) ∨
    ∃ q, body.rating = some q ∧
      ({ p with
          reviews := p.reviews ++
            [{ _id := s.nextOid, user := body.user, name := some (nameOrAnonymous body.name),
               rating := q, comment := body.comment, createdAt := now }],
          updatedAt := some now } : Product).validate = true ∧
      postReviews now s (IdParam.oid n) body =
        ({ docs := replaceDoc
              { p with
                reviews := p.reviews ++
                  [{ _id := s.nextOid, user := body.user,
                     name := some (nameOrAnonymous body.name), rating := q,
                     comment := body.comment, createdAt := now }],
                updatedAt := some now } s.docs,
           nextOid := s.nextOid + 1 },
         { status := 201,
           body := Body.reviewAdded "Review added"
             { name := nameOrAnonymous body.name, rating := body.rating,
               comment := body.comment, user := body.user } }) := by
  cases hq : body.rating with
  | none => simp [postReviews, hf, reviewSchema, hq]
  | some q =>
    by_cases hv : ({ p with
          reviews := p.reviews ++
            [{ _id := s.nextOid, user := body.user, name := some (nameOrAnonymous body.name),
               rating := q, comment := body.comment, createdAt := now }],
          updatedAt := some now } : Product).validate = true
    · refine Or.inr ⟨q, rfl, hv, ?_⟩
      simp only [postReviews, hf, reviewSchema, hq, hv, if_true]
    · refine Or.inl ?_
      simp [postReviews, hf, reviewSchema, hq, hv]

theorem validate_reviews {p : Product} (hp : p.validate = true) :
    ∀ r ∈ p.reviews, 1 ≤ r.rating ∧ r.rating ≤ 5 := by
  intro r hr
  simp only [Product.validate, Bool.and_eq_true, List.all_eq_true] at hp
  have := hp.2 r hr
  simpa [Review.validate] using this

theorem findById_replaceDoc {n : ObjectId} {docs : List Product} {p q : Product}
    (hf : findById n docs = some p) (hq : q._id = n) :
    findById n (replaceDoc q docs) = some q := by
  induction docs with
  | nil => simp [findById] at hf
  | cons x xs ih =>
    by_cases hx : x._id = n
    · simp [replaceDoc, findById, hx, hq]
    · simp only [findById, hx, if_false] at hf
      simp [replaceDoc, findById, hx, hq, ih hf]

theorem productSchema_id {oid : ObjectId} {now : Nat} {b : ProductInput} {p : Product}
    (h : productSchema oid now b = some p) : p._id = oid := by
  unfold productSchema at h
  split at h
  · simp only [Option.some.injEq] at h
    subst h
    rfl
  · cases h

theorem replaceDoc_map_id (q : Product) (docs : List Product) :
    (replaceDoc q docs).map Product._id = docs.map Product._id := by
  induction docs with
  | nil => rfl
  | cons p ps ih =>
    by_cases hp : p._id = q._id
    · simp [replaceDoc, hp]
    · simp [replaceDoc, hp, ih]

theorem postProducts_fresh {now : Nat} {s : Store} {body : ProductInput} (hs : s.Fresh) :
    (postProducts now s body).1.Fresh := by
  rcases postProducts_cases now s body with h | ⟨p, hp, -, he⟩
  · rw [h]; exact hs
  · rw [he]
    have hid := productSchema_id hp
    constructor
    · simp only [List.map_append, List.map_cons, List.map_nil]
      refine List.Nodup.append hs.1 (List.nodup_singleton _) ?_
      intro x hx hx2
      simp only [List.mem_singleton] at hx2
      obtain ⟨y, hy, rfl⟩ := List.mem_map.mp hx
      have hlt : y._id < s.nextOid := hs.2 y hy
      rw [hx2, hid] at hlt
      exact Nat.lt_irrefl _ hlt
    · intro x hx
      rcases List.mem_append.mp hx with h | h
      · exact Nat.lt_of_lt_of_le (hs.2 x h)
          (Nat.le_trans (Nat.le_add_right _ 1) (Nat.le_add_right _ _))
      · simp only [List.mem_singleton] at h
        subst h
        rw [hid]
        exact Nat.lt_of_lt_of_le (Nat.lt_succ_self _) (Nat.le_add_right _ _)

theorem postReviews_fresh {now : Nat} {s : Store} {id : IdParam} {body : ReviewInput}
    (hs : s.Fresh) : (postReviews now s id body).1.Fresh := by
  rcases postReviews_cases now s id body with h | ⟨n, p, r, -, hf, -, -, he⟩
  · rw [h.1]; exact hs
  · rw [he]
    constructor
    · show ((replaceDoc _ s.docs).map Product._id).Nodup
      rw [replaceDoc_map_id]
      exact hs.1
    · intro x hx
      show x._id < s.nextOid + 1
      rcases mem_replaceDoc hx with h | h
      · exact Nat.lt_succ_of_lt (hs.2 x h)
      · subst h
        exact Nat.lt_succ_of_lt (hs.2 p (findById_eq_some hf).1)

theorem postPurchase_map_id (s : Store) (id : IdParam) (body : PurchaseBody) :
    (postPurchase s id body).1.docs.map Product._id = s.docs.map Product._id ∧
      (postPurchase s id body).1.nextOid = s.nextOid := by
  rcases postPurchase_cases s id body with h | ⟨n, r, -, hf, he⟩
  · rw [h.1]; exact ⟨rfl, rfl⟩
  · rw [he]
    obtain ⟨pre, p, post, i, hd, -, -, hr⟩ := findOneAndUpdate_eq_some hf
    subst hr
    refine ⟨?_, rfl⟩
    simp [hd, incStock]

theorem postPurchase_fresh {s : Store} {id : IdParam} {body : PurchaseBody} (hs : s.Fresh) :
    (postPurchase s id body).1.Fresh := by
  obtain ⟨h1, h2⟩ := postPurchase_map_id s id body
  constructor
  · rw [h1]; exact hs.1
  · intro x hx
    have hx1 : x._id ∈ (postPurchase s id body).1.docs.map Product._id :=
      List.mem_map.mpr ⟨x, hx, rfl⟩
    rw [h1] at hx1
    obtain ⟨y, hy, hxy⟩ := List.mem_map.mp hx1
    rw [h2, ← hxy]
    exact hs.2 y hy

theorem run_fresh (rs : List Request) {s : Store} (hs : s.Fresh) : (run s rs).Fresh := by
  induction rs generalizing s with
  | nil => exact hs
  | cons r rs ih =>
    apply ih
    cases r with
    | create now body => exact postProducts_fresh hs
    | addReview now id body => exact postReviews_fresh hs
    | purchase id body => exact postPurchase_fresh hs

theorem reachable_nodup_ids {s : Store} (h : Reachable s) : (s.docs.map Product._id).Nodup := by
  obtain ⟨rs, rfl⟩ := h
  exact (run_fresh rs ⟨by simp [Store.empty], fun p hp => by simp [Store.empty] at hp⟩).1

theorem findById_split {n : ObjectId} {docs : List Product} {p : Product}
    (h : findById n docs = some p) :
    ∃ pre post, docs = pre ++ p :: post ∧ ∀ x ∈ pre, x._id ≠ n := by
  induction docs with
  | nil => simp [findById] at h
  | cons x xs ih =>
    by_cases hx : x._id = n
    · simp only [findById, hx, if_true, Option.some.injEq] at h
      subst h
      exact ⟨[], xs, rfl, by simp⟩
    · simp only [findById, hx, if_false] at h
      obtain ⟨pre, post, hd, hpre⟩ := ih h
      refine ⟨x :: pre, post, by simp [hd], ?_⟩
      intro y hy
      rcases List.mem_cons.mp hy with rfl | hy
      · exact hx
      · exact hpre y hy

theorem findById_append {n : ObjectId} {pre post : List Product} {q : Product}
    (hpre : ∀ x ∈ pre, x._id ≠ n) (hq : q._id = n) :
    findById n (pre ++ q :: post) = some q := by
  induction pre with
  | nil => simp [findById, hq]
  | cons x xs ih =>
    have hx : ¬ x._id = n := hpre x (List.mem_cons_self _ _)
    simp only [List.cons_append, findById, hx, if_false]
    exact ih (fun y hy => hpre y (List.mem_cons_of_mem _ hy))

theorem findOneAndUpdate_append {query : Product → Option Nat}
    (update : Nat → Product → Product) {pre : List Product} (post : List Product)
    {p : Product} {i : Nat}
    (hpre : ∀ x ∈ pre, query x = none) (hp : query p = some i) :
    findOneAndUpdate query update (pre ++ p :: post) =
      some (pre ++ update i p :: post, update i p) := by
  induction pre with
  | nil => simp [findOneAndUpdate, hp]
  | cons x xs ih =>
    have hx : query x = none := hpre x (List.mem_cons_self _ _)
    have hrest := ih (fun y hy => hpre y (List.mem_cons_of_mem _ hy))
    show findOneAndUpdate query update (x :: (xs ++ p :: post)) = _
    simp only [findOneAndUpdate, hx, hrest, List.cons_append]

theorem postPurchase_single_variant {s : Store} {n : ObjectId} {sku : String} {qty : ℚ}
    {p : Product} {v : Variant} (hf : findById n s.docs = some p) (hv : p.variants = [v])
    (hsku : v.sku = sku) (hq : qty ≤ v.stock) :
    (postPurchase s (IdParam.oid n) { sku := sku, qty := some qty }).2.status = 200 ∧
      findById n (postPurchase s (IdParam.oid n) { sku := sku, qty := some qty }).1.docs =
        some { p with variants := [{ v with stock := v.stock - qty }] } := by
  obtain ⟨pre, post, hd, hpre⟩ := findById_split hf
  have hid : p._id = n := (findById_eq_some hf).2
  have hquery : purchaseQuery n sku qty p = some 0 := by
    simp [purchaseQuery, hid, hv, hsku, firstIndex, hq]
  have hfu := findOneAndUpdate_append (incStock (-qty)) post
    (fun x hx => purchaseQuery_eq_none_of_id_ne sku qty (hpre x hx)) hquery
  rw [← hd] at hfu
  have hinc : incStock (-qty) 0 p = { p with variants := [{ v with stock := v.stock - qty }] } := by
    simp [incStock, hv, incAt, sub_eq_add_neg]
  simp only [postPurchase, Option.getD_some, hfu, hinc, true_and]
  exact findById_append hpre hid

theorem run_tee_two_reviews :
    run Store.empty
        [Request.create 0 teeInput,
         Request.addReview 0 (IdParam.oid 0) (ratingOnly 5),
         Request.addReview 0 (IdParam.oid 0) (ratingOnly 3)] =
      { docs := [reviewedTee [sampleReview 1 5, sampleReview 2 3]], nextOid := 3 } := by
  simp [run, handle, postProducts, productSchema, castVariants, castReviews,
    variantSchema, Product.validate, Variant.validate, Review.validate, Store.empty,
    teeInput, postReviews, findById, reviewSchema, nameOrAnonymous, replaceDoc, ratingOnly,
    reviewedTee, sampleReview, sampleVariant]
  norm_num

/-! ## Purchase -/

/-- C1 (the code departs from the claim).  Product 0 has variant `A` with stock 0 and
variant `B` with stock 5.  A purchase of 1 unit of `A` answers 200 with 'Purchase
successful', although no variant has sku `A` and a stock of its own of at least 1: the sku
condition of the filter is met by `A` and the stock condition by `B`. -/
theorem purchase_succeeds_on_stock_of_other_variant :
    (postPurchase (twoVariantStore 0 5) (IdParam.oid 0) { sku := "A", qty := some 1 }).2.status =
        200 ∧
      (∃ product,
        (postPurchase (twoVariantStore 0 5) (IdParam.oid 0) { sku := "A", qty := some 1 }).2.body =
          Body.purchased "Purchase successful" product) ∧
      ¬ ∃ v ∈ (twoVariantProduct 0 5).variants, v.sku = "A" ∧ (1 : ℚ) ≤ v.stock := by
  refine ⟨?_, ?_, ?_⟩
  · norm_num [postPurchase, findOneAndUpdate, purchaseQuery, firstIndex, incStock, incAt,
      twoVariantStore, twoVariantProduct, sampleVariant]
  · norm_num [postPurchase, findOneAndUpdate, purchaseQuery, firstIndex, incStock, incAt,
      twoVariantStore, twoVariantProduct, sampleVariant]
  · simp [twoVariantProduct, sampleVariant]

/-- C2 (the code departs from the claim).  On product 0 with `A` at stock 1 and `B` at
stock 5, the purchase of 3 units of `A` succeeds; in the stored and returned product the
stock of `A` is still 1, not 1 - 3, and the stock of `B`, a variant that was not named, went
from 5 to 2.  The scenario of the claim itself behaves as described: after creating `Tee`
with `T1` at stock 2, buying 2 succeeds and leaves stock 0, and buying 1 more fails. -/
theorem purchase_decrements_other_variant :
    postPurchase (twoVariantStore 1 5) (IdParam.oid 0) { sku := "A", qty := some 3 } =
        (twoVariantStore 1 2,
         { status := 200, body := Body.purchased "Purchase successful" (twoVariantProduct 1 2) }) ∧
      responses Store.empty
          [Request.create 0 teeInput,
           Request.purchase (IdParam.oid 0) { sku := "T1", qty := some 2 },
           Request.purchase (IdParam.oid 0) { sku := "T1", qty := some 1 }] =
        [{ status := 201, body := Body.product (teeProduct 2) },
         { status := 200, body := Body.purchased "Purchase successful" (teeProduct 0) },
         { status := 400, body := Body.error "Insufficient stock or invalid SKU" }] := by
  constructor
  · norm_num [postPurchase, findOneAndUpdate, purchaseQuery, firstIndex, incStock, incAt,
      twoVariantStore, twoVariantProduct, sampleVariant]
  · simp [responses, handle, postProducts, productSchema, castVariants, castReviews,
      variantSchema, Product.validate, Variant.validate, Store.empty, teeInput, teeProduct,
      postPurchase, findOneAndUpdate, purchaseQuery, firstIndex, incStock, incAt, sampleVariant]
    norm_num

/-- C3 (the code departs from the claim).  Variant `A` has stock S = 1 and K = 3 purchases
of 1 unit of `A` are applied one after the other: all three answer 200, where the claim
allows one success and two failures; `A` ends at 0 and the two further units are taken from
variant `B`. -/
theorem three_purchases_exceed_stock_of_variant :
    (responses (twoVariantStore 1 5)
        [Request.purchase (IdParam.oid 0) { sku := "A", qty := some 1 },
         Request.purchase (IdParam.oid 0) { sku := "A", qty := some 1 },
         Request.purchase (IdParam.oid 0) { sku := "A", qty := some 1 }]).map Response.status =
        [200, 200, 200] ∧
      run (twoVariantStore 1 5)
        [Request.purchase (IdParam.oid 0) { sku := "A", qty := some 1 },
         Request.purchase (IdParam.oid 0) { sku := "A", qty := some 1 },
         Request.purchase (IdParam.oid 0) { sku := "A", qty := some 1 }] =
        twoVariantStore 0 3 := by
  constructor <;>
  norm_num [responses, run, handle, postPurchase, findOneAndUpdate, purchaseQuery, firstIndex,
    incStock, incAt, twoVariantStore, twoVariantProduct, sampleVariant]

/-! ## Stock invariant -/

/-- In every state reachable from the empty store by create, addReview and purchase
requests (with any qty), every variant of every product has stock >= 0.  Create answers 400
and stores nothing when a variant of the body has a negative stock; in a created product
every variant has the stock of the body, or 0 when the body gave none.  A purchase on a store
whose stocks are all >= 0 leaves all stocks >= 0; a purchase that does not answer 200 leaves
the store as it was; and a purchase whose qty exceeds the stock of every variant of the
product is answered 400 and changes nothing. -/
theorem stock_nonneg_invariant :
    (∀ s : Store, Reachable s → ∀ p ∈ s.docs, ∀ v ∈ p.variants, 0 ≤ v.stock) ∧
    (∀ (now : Nat) (s : Store) (body : ProductInput),
      (∃ v ∈ body.variants, ∃ q : ℚ, v.stock = some q ∧ q < 0) →
      postProducts now s body =
        (s, { status := 400, body := Body.thrown StoreError.validation })) ∧
    (∀ (now : Nat) (s : Store) (body : ProductInput) (p : Product),
      (postProducts now s body).2 = { status := 201, body := Body.product p } →
      (postProducts now s body).1.docs = s.docs ++ [p] ∧
      List.Forall₂ (fun (i : VariantInput) (w : Variant) => w.stock = i.stock.getD 0)
        body.variants p.variants) ∧
    (∀ (s : Store) (id : IdParam) (body : PurchaseBody),
      (∀ p ∈ s.docs, ∀ v ∈ p.variants, 0 ≤ v.stock) →
      ∀ p ∈ (postPurchase s id body).1.docs, ∀ v ∈ p.variants, 0 ≤ v.stock) ∧
    (∀ (s : Store) (id : IdParam) (body : PurchaseBody),
      (postPurchase s id body).2.status ≠ 200 → (postPurchase s id body).1 = s) ∧
    (∀ (s : Store) (n : ObjectId) (body : PurchaseBody),
      (∀ p ∈ s.docs, p._id = n → ∀ v ∈ p.variants, v.stock < body.qty.getD 1) →
      postPurchase s (IdParam.oid n) body =
        (s, { status := 400, body := Body.error "Insufficient stock or invalid SKU" })) := by
  refine ⟨?_, ?_, ?_, ?_, ?_, ?_⟩
  · intro s hs p hp
    exact validate_stock_nonneg (reachable_valid hs p hp)
  · rintro now s body ⟨v, hv, q, hq, hneg⟩
    rcases postProducts_cases now s body with h | ⟨p, hp, hval, -⟩
    · exact h
    · exfalso
      have hall := castVariants_eq_some (productSchema_variants hp)
      obtain ⟨w, hw, hvw⟩ := forall₂_mem_left hall hv
      have h0 := validate_stock_nonneg hval w hw
      rw [variantSchema_stock hvw, hq] at h0
      simp only [Option.getD_some] at h0
      linarith
  · intro now s body p h
    rcases postProducts_cases now s body with h1 | ⟨p1, hp, -, he⟩
    · rw [h1] at h
      simp at h
    · rw [he] at h ⊢
      simp only [Response.mk.injEq, Body.product.injEq, true_and] at h
      subst h
      exact ⟨rfl, (castVariants_eq_some (productSchema_variants hp)).imp
        (fun _ _ hiw => variantSchema_stock hiw)⟩
  · intro s id body hs
    exact postPurchase_stock_nonneg hs
  · intro s id body h
    rcases postPurchase_cases s id body with h1 | ⟨n, r, -, -, he⟩
    · exact h1.1
    · rw [he] at h
      simp at h
  · intro s n body h
    have hnone : findOneAndUpdate (purchaseQuery n body.sku (body.qty.getD 1))
        (incStock (-(body.qty.getD 1))) s.docs = none := by
      rw [findOneAndUpdate_eq_none]
      intro p hp
      by_cases hid : p._id = n
      · exact purchaseQuery_eq_none_of_stock_lt (h p hp hid)
      · exact purchaseQuery_eq_none_of_id_ne _ _ hid
    simp [postPurchase, hnone]

/-- The invariant at a concrete state: after creating `Tee` with `T1` at stock 2 and buying 2 units,
the store holds `T1` at stock 0, which is >= 0. -/
theorem stock_nonneg_invariant_witness :
    Reachable { docs := [teeProduct 0], nextOid := 1 } ∧
      0 ≤ (sampleVariant "T1" 0).stock :=
  have hr : Reachable { docs := [teeProduct 0], nextOid := 1 } :=
    ⟨[Request.create 0 teeInput,
      Request.purchase (IdParam.oid 0) { sku := "T1", qty := some 2 }], by
      simp [run, handle, postProducts, productSchema, castVariants, castReviews,
        variantSchema, Product.validate, Variant.validate, Store.empty, teeInput, teeProduct,
        postPurchase, findOneAndUpdate, purchaseQuery, firstIndex, incStock, incAt,
        sampleVariant]⟩
  ⟨hr, stock_nonneg_invariant.1 _ hr (teeProduct 0) (List.mem_singleton.mpr rfl)
    (sampleVariant "T1" 0) (List.mem_singleton.mpr rfl)⟩

/-- C4 (the code departs from the claim).  Product 0 has variant `A` with stock 1 and
variant `B` with stock 5.  Taking 3 units from `A`, the variant named in the request, would
bring its stock to 1 - 3, below 0.  The purchase is not rejected: it answers 200 and the
store is changed, the 3 units being taken from `B`, which goes from 5 to 2.  The claim
requires such a request to be rejected as a whole and to change nothing.  (No stock goes
below 0, here as in every reachable state.) -/
theorem purchase_not_rejected_when_named_variant_is_short :
    sampleVariant "A" 1 ∈ (twoVariantProduct 1 5).variants ∧
    (sampleVariant "A" 1).stock - 3 < 0 ∧
    (postPurchase (twoVariantStore 1 5) (IdParam.oid 0) { sku := "A", qty := some 3 }).2.status =
      200 ∧
    (postPurchase (twoVariantStore 1 5) (IdParam.oid 0) { sku := "A", qty := some 3 }).1.docs =
      [twoVariantProduct 1 2] ∧
    (postPurchase (twoVariantStore 1 5) (IdParam.oid 0) { sku := "A", qty := some 3 }).1.docs ≠
      (twoVariantStore 1 5).docs := by
  have hrun : postPurchase (twoVariantStore 1 5) (IdParam.oid 0) { sku := "A", qty := some 3 } =
      (twoVariantStore 1 2,
       { status := 200,
         body := Body.purchased "Purchase successful" (twoVariantProduct 1 2) }) := by
    norm_num [postPurchase, findOneAndUpdate, purchaseQuery, firstIndex, incStock, incAt,
      twoVariantStore, twoVariantProduct, sampleVariant]
  rw [hrun]
  refine ⟨?_, ?_, rfl, rfl, ?_⟩
  · simp [twoVariantProduct]
  · norm_num [sampleVariant]
  · norm_num [twoVariantStore, twoVariantProduct, sampleVariant]

/-! ## Quantity of a purchase -/

/-- C5, counterexample.  With `T1` at stock 2, a purchase with qty -3 answers 200 and the
stock of `T1` rises to 5; a purchase with qty 0 answers 200; and a purchase with qty 1/2
answers 200 and leaves stock 3/2. -/
theorem purchase_accepts_nonpositive_and_fractional_qty :
    postPurchase { docs := [teeProduct 2], nextOid := 1 } (IdParam.oid 0)
        { sku := "T1", qty := some (-3) } =
      ({ docs := [teeProduct 5], nextOid := 1 },
       { status := 200, body := Body.purchased "Purchase successful" (teeProduct 5) }) ∧
    postPurchase { docs := [teeProduct 2], nextOid := 1 } (IdParam.oid 0)
        { sku := "T1", qty := some 0 } =
      ({ docs := [teeProduct 2], nextOid := 1 },
       { status := 200, body := Body.purchased "Purchase successful" (teeProduct 2) }) ∧
    postPurchase { docs := [teeProduct 2], nextOid := 1 } (IdParam.oid 0)
        { sku := "T1", qty := some (1 / 2) } =
      ({ docs := [teeProduct (3 / 2)], nextOid := 1 },
       { status := 200, body := Body.purchased "Purchase successful" (teeProduct (3 / 2)) }) := by
  refine ⟨?_, ?_, ?_⟩ <;>
  norm_num [postPurchase, findOneAndUpdate, purchaseQuery, firstIndex, incStock, incAt,
    teeProduct, sampleVariant]

/-- C5, amended.  A body without qty is handled exactly as qty = 1.  The route does not
validate qty: a purchase with qty <= 0 that names a sku present on an existing product whose
stocks are all >= 0 answers 200, and the total stock held in the store changes by exactly
-qty (it grows when qty is negative); with qty = 0 the store is left as it was.  On a product
whose only variant carries the given sku, a purchase with any qty up to the stock of that
variant (zero, negative or not an integer included) answers 200 and leaves stock - qty. -/
theorem purchase_qty_default_and_not_validated :
    (∀ (s : Store) (id : IdParam) (sku : String),
      postPurchase s id { sku := sku, qty := none } =
        postPurchase s id { sku := sku, qty := some 1 }) ∧
    (∀ (s : Store) (n : ObjectId) (sku : String) (qty : ℚ), qty ≤ 0 →
      (∃ p ∈ s.docs, p._id = n ∧ (∃ v ∈ p.variants, v.sku = sku) ∧
        ∀ v ∈ p.variants, 0 ≤ v.stock) →
      (postPurchase s (IdParam.oid n) { sku := sku, qty := some qty }).2.status = 200 ∧
      totalStock (postPurchase s (IdParam.oid n) { sku := sku, qty := some qty }).1.docs =
        totalStock s.docs - qty) ∧
    (∀ (s : Store) (id : IdParam) (sku : String),
      (postPurchase s id { sku := sku, qty := some 0 }).1 = s) ∧
    (∀ (s : Store) (n : ObjectId) (sku : String) (qty : ℚ) (p : Product) (v : Variant),
      findById n s.docs = some p → p.variants = [v] → v.sku = sku → qty ≤ v.stock →
      (postPurchase s (IdParam.oid n) { sku := sku, qty := some qty }).2.status = 200 ∧
      findById n (postPurchase s (IdParam.oid n) { sku := sku, qty := some qty }).1.docs =
        some { p with variants := [{ v with stock := v.stock - qty }] }) := by
  refine ⟨?_, ?_, ?_, fun s n sku qty p v hf hv hsku hq =>
    postPurchase_single_variant hf hv hsku hq⟩
  · intro s id sku
    rfl
  · rintro s n sku qty hq ⟨p, hp, hid, hsku, hstock⟩
    rcases postPurchase_cases s (IdParam.oid n) { sku := sku, qty := some qty } with
      h | ⟨m, r, hm, hf, he⟩
    · exfalso
      have hnone : findOneAndUpdate (purchaseQuery n sku qty) (incStock (-qty)) s.docs = none := by
        cases hf : findOneAndUpdate (purchaseQuery n sku qty) (incStock (-qty)) s.docs with
        | none => rfl
        | some r =>
          exfalso
          apply h.2
          simp [postPurchase, hf]
      exact purchaseQuery_isSome_of_nonpos hid hsku hstock hq
        (findOneAndUpdate_eq_none.mp hnone p hp)
    · rw [he]
      obtain ⟨pre, p1, post, i, hd, -, hq1, hr⟩ := findOneAndUpdate_eq_some hf
      subst hr
      refine ⟨rfl, ?_⟩
      have hi := firstIndex_lt_length (purchaseQuery_eq_some hq1).2.2
      simp only [Option.getD_some] at hi ⊢
      rw [hd, totalStock_append_cons, totalStock_append_cons]
      simp only [incStock]
      rw [sum_stock_incAt _ hi]
      ring
  · intro s id sku
    rcases postPurchase_cases s id { sku := sku, qty := some 0 } with h | ⟨m, r, hm, hf, he⟩
    · exact h.1
    · rw [he]
      obtain ⟨pre, p1, post, i, hd, -, hq1, hr⟩ := findOneAndUpdate_eq_some hf
      subst hr
      have : incStock (-(0 : ℚ)) i p1 = p1 := by
        simp [incStock, incAt_zero]
      simp only [Option.getD_some, this]
      rw [← hd]

/-- C5 amended, at a concrete request: with `T1` at stock 2, qty = -3 is accepted and the
total stock goes from 2 to 2 - (-3). -/
theorem purchase_qty_default_and_not_validated_witness :
    (-3 : ℚ) ≤ 0 ∧
    (postPurchase { docs := [teeProduct 2], nextOid := 1 } (IdParam.oid 0)
        { sku := "T1", qty := some (-3) }).2.status = 200 ∧
    totalStock (postPurchase { docs := [teeProduct 2], nextOid := 1 } (IdParam.oid 0)
        { sku := "T1", qty := some (-3) }).1.docs =
      totalStock [teeProduct 2] - (-3) :=
  ⟨by norm_num,
   purchase_qty_default_and_not_validated.2.1 { docs := [teeProduct 2], nextOid := 1 } 0 "T1"
    (-3) (by norm_num)
    ⟨teeProduct 2, List.mem_singleton.mpr rfl, rfl,
      ⟨sampleVariant "T1" 2, List.mem_singleton.mpr rfl, rfl⟩,
      fun v hv => by
        rw [List.mem_singleton.mp hv]
        norm_num [sampleVariant]⟩⟩

/-! ## Ratings -/

/-- C6.  For every product found by `GET /products/:id`, the answer is 200 with the stored
product itself, `reviewsCount` equal to the length of its reviews list, and `avgRating` null
when that list is empty and otherwise the sum of the ratings divided by their number. -/
theorem get_by_id_average (s : Store) (n : ObjectId) (p : Product)
    (h : findById n s.docs = some p) :
    p ∈ s.docs ∧ p._id = n ∧
    getProductById s (IdParam.oid n) =
      { status := 200,
        body := Body.detail p
          (if p.reviews = [] then none
           else some ((p.reviews.map Review.rating).sum / p.reviews.length))
          p.reviews.length } := by
  refine ⟨(findById_eq_some h).1, (findById_eq_some h).2, ?_⟩
  simp only [getProductById, h, sumRatings_eq]
  by_cases hr : p.reviews = []
  · simp [hr]
  · simp [hr]

/-- C6 at a concrete store: `Tee` with ratings 5 and 3 is returned with `avgRating`
(5 + 3) / 2 and `reviewsCount` 2. -/
theorem get_by_id_average_witness :
    findById 0 [reviewedTee [sampleReview 1 5, sampleReview 2 3]] =
        some (reviewedTee [sampleReview 1 5, sampleReview 2 3]) ∧
    getProductById { docs := [reviewedTee [sampleReview 1 5, sampleReview 2 3]], nextOid := 3 }
        (IdParam.oid 0) =
      { status := 200,
        body := Body.detail (reviewedTee [sampleReview 1 5, sampleReview 2 3])
          (if (reviewedTee [sampleReview 1 5, sampleReview 2 3]).reviews = [] then none
           else some
            (((reviewedTee [sampleReview 1 5, sampleReview 2 3]).reviews.map Review.rating).sum /
              (reviewedTee [sampleReview 1 5, sampleReview 2 3]).reviews.length))
          (reviewedTee [sampleReview 1 5, sampleReview 2 3]).reviews.length } :=
  ⟨rfl,
   (get_by_id_average
    { docs := [reviewedTee [sampleReview 1 5, sampleReview 2 3]], nextOid := 3 } 0
    (reviewedTee [sampleReview 1 5, sampleReview 2 3]) rfl).2.2⟩

/-- Where the installed mongoose accepts the ObjectId call without `new` (up to mongoose 6),
the avg-rating pipeline answers 200: with `avgRating: null, count: 0` when no product has
the id, and for a product of a store with unique ids with the mean of its ratings (null
when it has none) and the number of its reviews.  Ids are unique in every reachable state.
After creating `Tee` and adding reviews rated 5 and 3 the answer is `avgRating: 4,
count: 2`. -/
theorem getAvgRating_when_callable :
    (∀ s : Store, Reachable s → (s.docs.map Product._id).Nodup) ∧
    (∀ (s : Store) (n : ObjectId), findById n s.docs = none →
      getAvgRating true s (IdParam.oid n) =
        { status := 200,
          body := Body.rating { _id := none, avgRating := none, count := 0 } }) ∧
    (∀ (s : Store) (p : Product), (s.docs.map Product._id).Nodup → p ∈ s.docs →
      getAvgRating true s (IdParam.oid p._id) =
        { status := 200,
          body := Body.rating
            { _id := some p._id,
              avgRating :=
                if p.reviews = [] then none
                else some ((p.reviews.map Review.rating).sum / p.reviews.length),
              count := p.reviews.length } }) ∧
    getAvgRating true
        (run Store.empty
          [Request.create 0 teeInput,
           Request.addReview 0 (IdParam.oid 0) (ratingOnly 5),
           Request.addReview 0 (IdParam.oid 0) (ratingOnly 3)])
        (IdParam.oid 0) =
      { status := 200,
        body := Body.rating { _id := some 0, avgRating := some 4, count := 2 } } := by
  refine ⟨fun s hs => reachable_nodup_ids hs, ?_, ?_, ?_⟩
  · intro s n h
    simp [getAvgRating, filter_id_eq_nil h, unwindAllReviews, group]
  · intro s p hnd hp
    exact getAvgRating_of_unique hnd hp
  · rw [run_tee_two_reviews]
    have h := @getAvgRating_of_unique
      { docs := [reviewedTee [sampleReview 1 5, sampleReview 2 3]], nextOid := 3 }
      (reviewedTee [sampleReview 1 5, sampleReview 2 3]) (by simp) (by simp)
    rw [show (reviewedTee [sampleReview 1 5, sampleReview 2 3])._id = 0 from rfl] at h
    rw [h]
    simp only [reviewedTee, sampleReview, List.map_cons, List.map_nil, List.sum_cons,
      List.sum_nil, List.length_cons, List.length_nil, reduceCtorEq, if_false]
    norm_num

/-- C7 (the code departs from the claim).  The route calls `mongoose.Types.ObjectId(...)`
without `new`.  With a mongoose that throws on such a call (mongoose 7 and later) the route
answers 500 for every store and every id, well-formed or not; in the scenario of the claim
(product `Tee`, reviews rated 5 and 3) the answer is 500 instead of
`avgRating: 4, count: 2`. -/
theorem avg_rating_route_throws_without_new :
    (∀ (s : Store) (id : IdParam),
      getAvgRating false s id = { status := 500, body := Body.thrown StoreError.typeError }) ∧
    getAvgRating false
        (run Store.empty
          [Request.create 0 teeInput,
           Request.addReview 0 (IdParam.oid 0) (ratingOnly 5),
           Request.addReview 0 (IdParam.oid 0) (ratingOnly 3)])
        (IdParam.oid 0) =
      { status := 500, body := Body.thrown StoreError.typeError } ∧
    run Store.empty
        [Request.create 0 teeInput,
         Request.addReview 0 (IdParam.oid 0) (ratingOnly 5),
         Request.addReview 0 (IdParam.oid 0) (ratingOnly 3)] =
      { docs := [reviewedTee [sampleReview 1 5, sampleReview 2 3]], nextOid := 3 } :=
  ⟨fun _ _ => rfl, rfl, run_tee_two_reviews⟩

/-! ## Category statistics -/

theorem categoryStats_perm (docs : List Product) :
    (categoryStats docs).Perm
      ((group (fun d => d.2) 0 (fun n _ => n + 1) (unwindCategories docs)).map
        (fun g => ({ _id := g.1, count := g.2 } : CategoryCount))) :=
  List.perm_insertionSort _ _

theorem categoryStats_shopDocs :
    categoryStats shopDocs =
      [{ _id := "Shirts", count := 2 }, { _id := "Sale", count := 1 },
       { _id := "Pants", count := 1 }] := by
  simp [categoryStats, shopDocs, labelled, unwindCategories, group, upsert, List.insertionSort,
    List.orderedInsert, countDesc]

/-- C8.  For every collection of products, the category-stats pipeline returns one row per
distinct label occurring in some categories list; the count of a row is the number of
(product, position) occurrences of its label; the counts add up to the total length of all
categories lists; and the rows are in non-increasing order of count.  Scenario: categories
`["Shirts"]`, `["Shirts","Sale"]`, `["Pants"]` give Shirts:2 first and then Pants:1 and
Sale:1 (rows of equal count in the order the store leaves them). -/
theorem category_stats_counts :
    (∀ docs : List Product,
      ((categoryStats docs).map CategoryCount._id).Nodup ∧
      (∀ c : String,
        c ∈ (categoryStats docs).map CategoryCount._id ↔ ∃ p ∈ docs, c ∈ p.categories) ∧
      (∀ row ∈ categoryStats docs,
        row.count = (docs.map (fun p => p.categories.count row._id)).sum) ∧
      ((categoryStats docs).map CategoryCount.count).sum =
        (docs.map (fun p => p.categories.length)).sum ∧
      (categoryStats docs).Sorted (fun a b => b.count ≤ a.count)) ∧
    ((categoryStats shopDocs).head? = some { _id := "Shirts", count := 2 } ∧
      (categoryStats shopDocs).Perm
        [{ _id := "Shirts", count := 2 }, { _id := "Pants", count := 1 },
         { _id := "Sale", count := 1 }]) := by
  constructor
  · intro docs
    have hperm := categoryStats_perm docs
    obtain ⟨hnd, hmem, hcount, hsum⟩ :=
      tally_group (fun d : Product × String => d.2) (unwindCategories docs)
    have hid : ((group (fun d : Product × String => d.2) 0 (fun n _ => n + 1)
          (unwindCategories docs)).map
          (fun g => ({ _id := g.1, count := g.2 } : CategoryCount))).map CategoryCount._id =
        (group (fun d : Product × String => d.2) 0 (fun n _ => n + 1)
          (unwindCategories docs)).map Prod.fst := by
      rw [List.map_map]; rfl
    have hcnt : ((group (fun d : Product × String => d.2) 0 (fun n _ => n + 1)
          (unwindCategories docs)).map
          (fun g => ({ _id := g.1, count := g.2 } : CategoryCount))).map CategoryCount.count =
        (group (fun d : Product × String => d.2) 0 (fun n _ => n + 1)
          (unwindCategories docs)).map Prod.snd := by
      rw [List.map_map]; rfl
    refine ⟨?_, ?_, ?_, ?_, ?_⟩
    · rw [(hperm.map CategoryCount._id).nodup_iff, hid]
      exact hnd
    · intro c
      rw [(hperm.map CategoryCount._id).mem_iff, hid, hmem, List.mem_reverse]
      exact mem_unwindCategories docs c
    · intro row hrow
      obtain ⟨g, hg, rfl⟩ := List.mem_map.mp (hperm.mem_iff.mp hrow)
      show g.2 = _
      rw [hcount g hg, List.count_reverse]
      exact count_unwindCategories docs g.1
    · rw [(hperm.map CategoryCount.count).sum_eq, hcnt, hsum, List.length_reverse,
        List.length_map]
      exact length_unwindCategories docs
    · exact List.sorted_insertionSort countDesc _
  · rw [categoryStats_shopDocs]
    exact ⟨rfl, List.Perm.cons _ (List.Perm.swap _ _ _)⟩

/-- C8 at a concrete collection: in the scenario the row Shirts:2 is returned and 2 is the
number of occurrences of `Shirts` over the three products. -/
theorem category_stats_counts_witness :
    ({ _id := "Shirts", count := 2 } : CategoryCount) ∈ categoryStats shopDocs ∧
      2 = (shopDocs.map (fun p => p.categories.count "Shirts")).sum :=
  have hmem : ({ _id := "Shirts", count := 2 } : CategoryCount) ∈ categoryStats shopDocs := by
    rw [categoryStats_shopDocs]
    exact List.mem_cons_self _ _
  ⟨hmem, (category_stats_counts.1 shopDocs).2.2.1 { _id := "Shirts", count := 2 } hmem⟩

/-! ## Listing -/

theorem getProducts_of_pos (t : String → Product → Bool) (s : Store) (c q : Option String)
    (page limit : Nat) (hp : 1 ≤ page) (hl : 1 ≤ limit) :
    getProducts t s { category := c, search := q, page := some page, limit := some limit } =
      { status := 200,
        body := Body.products
          (((s.docs.filter (listFilter t c q)).drop ((page - 1) * limit)).take limit) } := by
  have h1 : ((page : Int) - 1) * (limit : Int) = (((page - 1) * limit : Nat) : Int) := by
    push_cast [Nat.cast_sub hp]
    ring
  have h2 : ¬ ((limit : Int) = 0) := by omega
  simp only [getProducts, Option.getD_some, h1, h2, if_false, Int.toNat_ofNat, Int.natAbs_ofNat]
  have h3 : ¬ ((((page - 1) * limit : Nat) : Int) < 0) := by omega
  simp only [h3, if_false]

theorem listFilter_eq_true (t : String → Product → Bool) (c q : Option String) (p : Product) :
    listFilter t c q p = true ↔
      (c = none ∨ c = some "" ∨ ∃ l, c = some l ∧ l ∈ p.categories) ∧
      (q = none ∨ q = some "" ∨ ∃ w, q = some w ∧ t w p = true) := by
  cases c <;> cases q <;> simp [listFilter]

/-- C9.  An omitted page is page 1 and an omitted limit is limit 12.  For every store,
category, search text and integers page >= 1 and limit >= 1, the list route answers 200 with
the slice [(page-1)*limit, page*limit) of the products matching the filter, in store order:
element i of the answer (i < limit) is element (page-1)*limit + i of the matching sequence.
The answer has at most limit products, each of them a stored product matching the filter,
and it is empty when the matching sequence has no more than (page-1)*limit elements, in
particular when nothing matches.  A product matches the category part of the filter when no
category is given (absent or empty string) or its categories list contains the given one. -/
theorem list_products_slice :
    (∀ (t : String → Product → Bool) (s : Store) (c q : Option String) (l : Option Int),
      getProducts t s { category := c, search := q, page := none, limit := l } =
        getProducts t s { category := c, search := q, page := some 1, limit := l }) ∧
    (∀ (t : String → Product → Bool) (s : Store) (c q : Option String) (p : Option Int),
      getProducts t s { category := c, search := q, page := p, limit := none } =
        getProducts t s { category := c, search := q, page := p, limit := some 12 }) ∧
    (∀ (t : String → Product → Bool) (s : Store) (c q : Option String) (page limit : Nat),
      1 ≤ page → 1 ≤ limit →
      getProducts t s { category := c, search := q, page := some page, limit := some limit } =
        { status := 200,
          body := Body.products
            (((s.docs.filter (listFilter t c q)).drop ((page - 1) * limit)).take limit) } ∧
      (∀ i, i < limit →
        (((s.docs.filter (listFilter t c q)).drop ((page - 1) * limit)).take limit)[i]? =
          (s.docs.filter (listFilter t c q))[(page - 1) * limit + i]?) ∧
      (((s.docs.filter (listFilter t c q)).drop ((page - 1) * limit)).take limit).length ≤
        limit ∧
      (∀ p ∈ ((s.docs.filter (listFilter t c q)).drop ((page - 1) * limit)).take limit,
        p ∈ s.docs ∧ listFilter t c q p = true) ∧
      ((s.docs.filter (listFilter t c q)).length ≤ (page - 1) * limit →
        ((s.docs.filter (listFilter t c q)).drop ((page - 1) * limit)).take limit = [])) ∧
    (∀ (t : String → Product → Bool) (c q : Option String) (p : Product),
      listFilter t c q p = true ↔
        (c = none ∨ c = some "" ∨ ∃ l, c = some l ∧ l ∈ p.categories) ∧
        (q = none ∨ q = some "" ∨ ∃ w, q = some w ∧ t w p = true)) := by
  refine ⟨?_, ?_, ?_, ?_⟩
  · intros; rfl
  · intros; rfl
  · intro t s c q page limit hp hl
    refine ⟨getProducts_of_pos t s c q page limit hp hl, ?_, ?_, ?_, ?_⟩
    · intro i hi
      rw [List.getElem?_take_of_lt hi, List.getElem?_drop]
    · exact List.length_take_le _ _
    · intro p hp
      have := List.mem_filter.mp (List.mem_of_mem_drop (List.mem_of_mem_take hp))
      exact ⟨this.1, this.2⟩
    · intro h
      rw [List.drop_eq_nil_of_le h, List.take_nil]
  · exact listFilter_eq_true

/-- C9 at a concrete request: page 2 with limit 1 of the products of category `Shirts` in
the sample collection is its second product. -/
theorem list_products_slice_witness :
    1 ≤ 2 ∧ 1 ≤ 1 ∧
    getProducts (fun _ _ => false) { docs := shopDocs, nextOid := 3 }
        { category := some "Shirts", search := none, page := some ((2 : Nat) : Int),
          limit := some ((1 : Nat) : Int) } =
      { status := 200,
        body := Body.products
          (((shopDocs.filter (listFilter (fun _ _ => false) (some "Shirts") none)).drop
            ((2 - 1) * 1)).take 1) } ∧
    ((shopDocs.filter (listFilter (fun _ _ => false) (some "Shirts") none)).drop
        ((2 - 1) * 1)).take 1 = [labelled 1 ["Shirts", "Sale"]] :=
  ⟨by decide, by decide,
   (list_products_slice.2.2.1 (fun _ _ => false) { docs := shopDocs, nextOid := 3 }
      (some "Shirts") none 2 1 (by decide) (by decide)).1,
   by simp [shopDocs, labelled, listFilter, List.filter]⟩

/-! ## Reviews -/

/-- C10, counterexample.  A review with rating 4.5 on the product `Tee` is answered 201 and
stored, although 4.5 is none of the integers 1, 2, 3, 4, 5. -/
theorem review_rating_fraction_accepted :
    postReviews 0 { docs := [reviewedTee []], nextOid := 1 } (IdParam.oid 0)
        (ratingOnly (9 / 2)) =
      ({ docs := [reviewedTee [sampleReview 1 (9 / 2)]], nextOid := 2 },
       { status := 201,
         body := Body.reviewAdded "Review added"
           { name := "Anonymous", rating := some (9 / 2), comment := none, user := none } }) ∧
    ¬ ((9 / 2 : ℚ) = 1 ∨ (9 / 2 : ℚ) = 2 ∨ (9 / 2 : ℚ) = 3 ∨ (9 / 2 : ℚ) = 4 ∨
        (9 / 2 : ℚ) = 5) := by
  constructor
  · simp [postReviews, findById, reviewSchema, nameOrAnonymous, replaceDoc, ratingOnly,
      reviewedTee, sampleReview, sampleVariant, Product.validate, Variant.validate,
      Review.validate]
    norm_num
  · norm_num

/-- C10, amended.  Every review stored in a reachable state has a rating r with
1 <= r <= 5.  An addReview whose rating is missing, below 1 or above 5 leaves the store
unchanged and, on an existing product, answers 400.  On a product of a reachable state a
rating between 1 and 5 (integer or not) is accepted.  An accepted addReview stores the
product with exactly one review appended at the end of its list, carrying the given rating
and the name 'Anonymous' when no name was given. -/
theorem review_rating_in_range :
    (∀ s : Store, Reachable s → ∀ p ∈ s.docs, ∀ r ∈ p.reviews, 1 ≤ r.rating ∧ r.rating ≤ 5) ∧
    (∀ (now : Nat) (s : Store) (n : ObjectId) (body : ReviewInput),
      (body.rating = none ∨ ∃ q : ℚ, body.rating = some q ∧ (q < 1 ∨ 5 < q)) →
      (postReviews now s (IdParam.oid n) body).1 = s ∧
      (findById n s.docs ≠ none →
        (postReviews now s (IdParam.oid n) body).2 =
          { status := 400, body := Body.thrown StoreError.validation })) ∧
    (∀ (now : Nat) (s : Store) (n : ObjectId) (p : Product) (body : ReviewInput) (q : ℚ),
      Reachable s → findById n s.docs = some p → body.rating = some q → 1 ≤ q → q ≤ 5 →
      (postReviews now s (IdParam.oid n) body).2.status = 201) ∧
    (∀ (now : Nat) (s : Store) (n : ObjectId) (p : Product) (body : ReviewInput),
      findById n s.docs = some p →
      (postReviews now s (IdParam.oid n) body).2.status = 201 →
      ∃ r : Review, body.rating = some r.rating ∧
        r.name = some (nameOrAnonymous body.name) ∧
        (body.name = none → r.name = some "Anonymous") ∧
        findById n (postReviews now s (IdParam.oid n) body).1.docs =
          some { p with reviews := p.reviews ++ [r], updatedAt := some now }) := by
  refine ⟨?_, ?_, ?_, ?_⟩
  · intro s hs p hp
    exact validate_reviews (reachable_valid hs p hp)
  · intro now s n body hbad
    cases hf : findById n s.docs with
    | none => simp [postReviews, hf]
    | some p =>
      rcases postReviews_outcome now s n p body hf with h | ⟨q, hq, hv, -⟩
      · rw [h]; simp
      · exfalso
        have hr := validate_reviews hv
          { _id := s.nextOid, user := body.user, name := some (nameOrAnonymous body.name),
            rating := q, comment := body.comment, createdAt := now } (by simp)
        rcases hbad with hnone | ⟨q1, hq1, hlt⟩
        · rw [hnone] at hq; cases hq
        · rw [hq1] at hq
          simp only [Option.some.injEq] at hq
          subst hq
          rcases hlt with h1 | h1 <;> simp only at hr <;> linarith [hr.1, hr.2]
  · intro now s n p body q hs hf hq h1 h5
    have hp : p.validate = true := reachable_valid hs p (findById_eq_some hf).1
    have hv : ({ p with
          reviews := p.reviews ++
            [{ _id := s.nextOid, user := body.user, name := some (nameOrAnonymous body.name),
               rating := q, comment := body.comment, createdAt := now }],
          updatedAt := some now } : Product).validate = true := by
      simp only [Product.validate, Bool.and_eq_true, List.all_eq_true, List.all_append,
        List.all_cons, List.all_nil, Bool.and_true] at hp ⊢
      refine ⟨⟨hp.1.1, hp.1.2⟩, hp.2, ?_⟩
      simp [Review.validate, h1, h5]
    simp [postReviews, hf, reviewSchema, hq, hv]
  · intro now s n p body hf hst
    rcases postReviews_outcome now s n p body hf with h | ⟨q, hq, -, he⟩
    · rw [h] at hst
      simp at hst
    · refine ⟨{ _id := s.nextOid, user := body.user, name := some (nameOrAnonymous body.name),
                rating := q, comment := body.comment, createdAt := now }, hq, rfl, ?_, ?_⟩
      · intro hn
        simp [hn, nameOrAnonymous]
      · rw [he]
        exact findById_replaceDoc hf (findById_eq_some hf).2

/-- C10 amended, at a concrete state: after creating `Tee` and adding a review rated 4.5
the stored rating 4.5 lies between 1 and 5. -/
theorem review_rating_in_range_witness :
    Reachable { docs := [reviewedTee [sampleReview 1 (9 / 2)]], nextOid := 2 } ∧
      1 ≤ (sampleReview 1 (9 / 2)).rating ∧ (sampleReview 1 (9 / 2)).rating ≤ 5 :=
  have hr : Reachable { docs := [reviewedTee [sampleReview 1 (9 / 2)]], nextOid := 2 } :=
    ⟨[Request.create 0 teeInput,
      Request.addReview 0 (IdParam.oid 0) (ratingOnly (9 / 2))], by
      simp [run, handle, postProducts, productSchema, castVariants, castReviews,
        variantSchema, Product.validate, Variant.validate, Review.validate, Store.empty,
        teeInput, postReviews, findById, reviewSchema, nameOrAnonymous, replaceDoc, ratingOnly,
        reviewedTee, sampleReview, sampleVariant]
      norm_num⟩
  ⟨hr, review_rating_in_range.1 _ hr (reviewedTee [sampleReview 1 (9 / 2)])
    (List.mem_singleton.mpr rfl) (sampleReview 1 (9 / 2)) (List.mem_singleton.mpr rfl)⟩

end EcomCatalog
